import Mathlib

/-!
Verification development for the ragops Retrieval & Indexing Engine.

The definitions below are a shallow embedding of the engine's core code:

* `services/ingest/app/chunker.py` — text normalization and chunking,
* `services/core/storage.py` — the SQLite (brute-force) storage backend,
* `services/core/database.py` — the Postgres/pgvector (server-side ANN) backend,
* `services/ingest/app/pipeline.py` — the per-file ingestion decision,
* `services/api/app/retriever.py` — reranking/diversification and the lazy
  two-stage retriever.

Modelling conventions:

* Python `float` values are modelled as exact rationals (`ℚ`); the float
  `math.sqrt` that appears only inside cosine similarity is kept symbolic: a
  similarity is carried as the pair `(d, s)` representing the exact real
  number `d / √s` (see `Sim`), which keeps every pipeline definition
  computable while statements interpret similarities in `ℝ` via `Sim.toReal`.
* Python `str` values are `String` / `List Char`; `bytes` are `List ℕ`.
* SQL tables are lists of row structures in table (insertion) order; SQL
  `UNIQUE` constraints and foreign keys appear as hypotheses where a proof
  needs them.
* External collaborators (the embedding provider, the GitHub content
  fetcher, the CODEOWNERS ownership collaborator) are explicit function
  parameters, mirroring §6 of the specification.
* `hashlib.sha256` (Python standard library, external to the repository) is
  modelled concretely by the FIPS 180-4 SHA-256 algorithm implemented below,
  so that index-version strings are genuine 16-hex-character truncated
  digests.
-/

set_option maxHeartbeats 1600000
set_option maxRecDepth 100000

attribute [local semireducible] Rat.add Rat.mul Rat.sub Rat.inv Rat.ofScientific

namespace RagOps

/-! ### Python string primitives used throughout the engine -/

/-- Characters treated as whitespace by Python `str.strip()` (ASCII range). -/
def isPySpace (c : Char) : Bool :=
  c == ' ' || c == '\t' || c == '\n' || c == '\r' || c == '\x0b' || c == '\x0c'

/-- Model of Python `str.strip()` on a character list. -/
def pyStrip (l : List Char) : List Char :=
  ((l.dropWhile isPySpace).reverse.dropWhile isPySpace).reverse

/-- Model of Python `str.strip()` on a `String`. -/
def pyStripStr (s : String) : String :=
  String.mk (pyStrip s.data)

/-- Model of Python `str.lower()` (ASCII case folding). -/
def pyLower (s : String) : String :=
  String.mk (s.data.map Char.toLower)

/-- Containment of one character list in another, i.e. Python `sub in hay`. -/
def listContains (sub : List Char) : List Char → Bool
  | [] => decide (sub = [])
  | x :: xs => sub.isPrefixOf (x :: xs) || listContains sub xs

/-- Python `sub in hay` on strings. -/
def strContains (hay sub : String) : Bool :=
  listContains sub.data hay.data

/-- Python `hay.endswith(sub)`. -/
def strEndsWith (hay sub : String) : Bool :=
  sub.data.isSuffixOf hay.data

/-! ### Exact similarity values

`_cosine_similarity` (storage.py) returns `dot / (√(Σ aᵢ²) · √(Σ bᵢ²))` as a
float, and `0.0` on empty/mismatched vectors or a zero norm.  We carry the
exact value symbolically as a numerator `d` together with the product of the
two sums of squares `s`, denoting the real number `d / √s`; degenerate cases
are represented as `d = 0, s = 1`.  This keeps comparisons decidable. -/

/-- Symbolic exact similarity value, denoting `d / √s` with `s > 0`. -/
structure Sim where
  d : ℚ
  s : ℚ
  s_pos : 0 < s

instance : DecidableEq Sim := fun a b =>
  decidable_of_iff (a.d = b.d ∧ a.s = b.s) (by cases a; cases b; simp)

instance {ε α : Type} [DecidableEq ε] [DecidableEq α] : DecidableEq (Except ε α)
  | .ok a, .ok b => decidable_of_iff (a = b) (by simp)
  | .ok _, .error _ => .isFalse (by simp)
  | .error _, .ok _ => .isFalse (by simp)
  | .error a, .error b => decidable_of_iff (a = b) (by simp)

/-- Real value denoted by a symbolic similarity. -/
noncomputable def Sim.toReal (x : Sim) : ℝ :=
  (x.d : ℝ) / Real.sqrt (x.s : ℝ)

/-- Decidable comparison of two symbolic similarities; agrees with the real
order on their denoted values (`Sim.leB_iff`). -/
def Sim.leB (x y : Sim) : Bool :=
  if 0 ≤ x.d then
    if 0 ≤ y.d then decide (x.d ^ 2 * y.s ≤ y.d ^ 2 * x.s) else false
  else
    if 0 ≤ y.d then true
    else decide (y.d ^ 2 * x.s ≤ x.d ^ 2 * y.s)

/-- Sum of squares `sum(x * x for x in l)`. -/
def sumSq (l : List ℚ) : ℚ :=
  (l.map (fun x => x * x)).sum

theorem sumSq_nonneg (l : List ℚ) : 0 ≤ sumSq l := by
  induction l with
  | nil => simp [sumSq]
  | cons x xs ih =>
    simp only [sumSq, List.map_cons, List.sum_cons]
    have : 0 ≤ x * x := mul_self_nonneg x
    have := ih
    simp only [sumSq] at this
    linarith

/-- Dot product `sum(x * y for x, y in zip(a, b))` (zip truncates). -/
def dot : List ℚ → List ℚ → ℚ
  | [], _ => 0
  | _, [] => 0
  | x :: xs, y :: ys => x * y + dot xs ys

/-- Model of `_cosine_similarity` (storage.py): `0.0` for empty/mismatched
vectors and zero norms, otherwise the exact value `dot / (√sa · √sb)`
represented as `(dot, sa * sb)` (note `√sa · √sb = √(sa · sb)`).  A float
norm `math.sqrt(sa)` is `0.0` exactly when `sa == 0`. -/
def cosineSimilarity (a b : List ℚ) : Sim :=
  if a = [] ∨ b = [] ∨ a.length ≠ b.length then ⟨0, 1, one_pos⟩
  else if h : sumSq a = 0 ∨ sumSq b = 0 then ⟨0, 1, one_pos⟩
  else
    ⟨dot a b, sumSq a * sumSq b,
      mul_pos
        (lt_of_le_of_ne (sumSq_nonneg a) (fun hh => h (Or.inl hh.symm)))
        (lt_of_le_of_ne (sumSq_nonneg b) (fun hh => h (Or.inr hh.symm)))⟩

/-! ### Storage rows (shared table shapes of both backends) -/

/-- Row of the `documents` table.  `metadata` is the JSON object stored with
the document, modelled as a string-valued association list (every field the
engine ever writes or reads is a string once `str()`-coerced, cf.
`document_exists_for_index`). -/
structure DocRow where
  id : ℕ
  s3Key : String
  sha256 : String
  collection : String
  metadata : List (String × String)
deriving DecidableEq

/-- JSON array element of a stored SQLite embedding, as seen by
`[float(v) for v in embedding]`: either a value `float()` accepts (modelled
by its rational value) or one on which `float()` raises. -/
inductive JsonElem where
  | num (q : ℚ)
  | other
deriving DecidableEq

/-- Content of the SQLite `chunks.embedding` TEXT column, as seen by
`_json_load(value, [])`: text that is not valid JSON (decoding falls back to
`[]`), valid JSON that is not an array, or an array of elements. -/
inductive StoredEmbedding where
  | badJson
  | nonList
  | list (elems : List JsonElem)
deriving DecidableEq

/-- Decoding performed by `search_vectors` (storage.py):
`_json_load(row["embedding"], [])`, the `isinstance(embedding, list)` check
(`continue` on failure), then `[float(v) for v in embedding]` (`continue`
when `float` raises).  `none` means the row is skipped. -/
def decodeEmbedding : StoredEmbedding → Option (List ℚ)
  | .badJson => some []
  | .nonList => none
  | .list es => es.mapM (fun e => match e with | .num q => some q | .other => none)

/-- Row of the SQLite `chunks` table. -/
structure ChunkRow where
  documentId : ℕ
  chunkIndex : ℕ
  content : List Char
  embedding : StoredEmbedding
  tokenCount : ℕ
  sourceFile : String
  lineStart : ℕ
  lineEnd : ℕ
deriving DecidableEq

/-- Row of the `repo_files` table (lazy mode). -/
structure RepoFileRow where
  collection : String
  owner : String
  repo : String
  ref : String
  filePath : String
  fileSha : String
  fileSize : ℕ
  embedded : Bool
deriving DecidableEq

/-- State of the SQLite backend: the tables touched by the engine core plus
the `ragops_meta` entry `'embedding_dimension'`.  `nextDocId` models the
`AUTOINCREMENT` counter of `documents.id`. -/
structure Store where
  nextDocId : ℕ
  docs : List DocRow
  chunks : List ChunkRow
  embeddingDim : Option ℕ
  repoFiles : List RepoFileRow
deriving DecidableEq

/-- Result row of `search_vectors` on either backend. -/
structure SearchHit where
  content : List Char
  sourceFile : String
  lineStart : ℕ
  lineEnd : ℕ
  chunkIndex : ℕ
  s3Key : String
  similarity : Sim
deriving DecidableEq

/-- Lookup in a JSON-object association list, i.e. `metadata.get(key)`. -/
def metaGet (metadata : List (String × String)) (key : String) : Option String :=
  (metadata.find? (fun kv => kv.1 == key)).map (·.2)

namespace Storage

/-- Record inserted by `upsert_chunks`: one element of the `chunks` list
argument (embeddings still as float lists, serialized on insert). -/
structure ChunkRecord where
  chunkIndex : ℕ
  content : List Char
  embedding : List ℚ
  tokenCount : ℕ
  sourceFile : String
  lineStart : ℕ
  lineEnd : ℕ
deriving DecidableEq

/-- Model of `get_chunks_embedding_dimension` (SQLite backend): the
`ragops_meta` value under key `'embedding_dimension'`. -/
def getChunksEmbeddingDimension (st : Store) : Option ℕ :=
  st.embeddingDim

/-- Model of `validate_embedding_dimension` (SQLite backend): on a virgin
store record the provider dimension, otherwise fail exactly on mismatch. -/
def validateEmbeddingDimension (st : Store) (providerDimension : ℕ) :
    Except String Store :=
  match getChunksEmbeddingDimension st with
  | none => .ok { st with embeddingDim := some providerDimension }
  | some existing =>
      if existing ≠ providerDimension then
        .error "Embedding dimension mismatch"
      else .ok st

/-- Report returned by `migrate_embedding_dimension`. -/
structure MigrationReport where
  previousDimension : Option ℕ
  newDimension : ℕ
  documentsDeleted : ℕ
  chunksDeleted : ℕ
  changed : Bool
deriving DecidableEq

/-- Model of `migrate_embedding_dimension` (SQLite backend).  Counts are the
unfiltered `COUNT(*)` of `documents` and `chunks`; `DELETE FROM documents`
removes every document and, through `ON DELETE CASCADE`, every chunk whose
parent document was deleted. -/
def migrateEmbeddingDimension (st : Store) (newDimension : ℕ) :
    Except String (Store × MigrationReport) :=
  if newDimension = 0 then .error "new_dimension must be a positive integer"
  else if st.embeddingDim = some newDimension then
    .ok (st, ⟨st.embeddingDim, newDimension, 0, 0, false⟩)
  else
    .ok
      ({ st with
          docs := [],
          chunks := st.chunks.filter
            (fun c => !(st.docs.any (fun d => d.id == c.documentId))),
          embeddingDim := some newDimension },
        ⟨st.embeddingDim, newDimension, st.docs.length, st.chunks.length, true⟩)

/-- Model of `document_exists` (SQLite backend). -/
def documentExists (st : Store) (sha256 collection : String) : Option ℕ :=
  (st.docs.find? (fun d => d.sha256 == sha256 && d.collection == collection)).map (·.id)

/-- Model of `document_exists_for_index` (SQLite backend): fetch the (by the
`UNIQUE (sha256, collection)` constraint, unique) row, then compare
`str(metadata.get("index_version", ""))` with the requested version. -/
def documentExistsForIndex (st : Store) (sha256 collection indexVersion : String) :
    Option ℕ :=
  match st.docs.find? (fun d => d.sha256 == sha256 && d.collection == collection) with
  | none => none
  | some row =>
      if (metaGet row.metadata "index_version").getD "" = indexVersion then some row.id
      else none

/-- Model of `upsert_document` (SQLite backend): `ON CONFLICT (sha256,
collection) DO UPDATE` updates the matching row (unique by constraint; the
model updates all matches, which coincides on constraint-respecting states),
otherwise a fresh row is appended with the next `AUTOINCREMENT` id. -/
def upsertDocument (st : Store) (s3Key sha256 collection : String)
    (metadata : List (String × String)) : Store × ℕ :=
  match st.docs.find? (fun d => d.sha256 == sha256 && d.collection == collection) with
  | some row =>
      ({ st with
          docs := st.docs.map (fun d =>
            if d.sha256 == sha256 && d.collection == collection then
              { d with s3Key := s3Key, metadata := metadata }
            else d) },
        row.id)
  | none =>
      ({ st with
          nextDocId := st.nextDocId + 1,
          docs := st.docs ++ [⟨st.nextDocId, s3Key, sha256, collection, metadata⟩] },
        st.nextDocId)

/-- Model of `upsert_chunks` (SQLite backend): delete the document's rows,
then insert the new rows (embeddings serialized with `json.dumps`).  Returns
the number of inserted chunks. -/
def upsertChunks (st : Store) (documentId : ℕ) (chunks : List ChunkRecord) :
    Store × ℕ :=
  ({ st with
      chunks :=
        st.chunks.filter (fun c => !(c.documentId == documentId)) ++
          chunks.map (fun r =>
            ⟨documentId, r.chunkIndex, r.content, .list (r.embedding.map .num),
              r.tokenCount, r.sourceFile, r.lineStart, r.lineEnd⟩) },
    chunks.length)

/-- The SQL join `chunks c JOIN documents d ON d.id = c.document_id WHERE
d.collection = ?`, in chunk-table order (document ids are unique by the
schema, so `find?` fetches the unique parent). -/
def joinedRows (st : Store) (collection : String) : List (ChunkRow × DocRow) :=
  st.chunks.filterMap (fun c =>
    match st.docs.find? (fun d => d.id == c.documentId && d.collection == collection) with
    | some d => some (c, d)
    | none => none)

/-- Scoring loop of `search_vectors` (storage.py): decode each row's
embedding (skipping undecodable rows) and score it against the query. -/
def scoredHits (st : Store) (queryEmbedding : List ℚ) (collection : String) :
    List SearchHit :=
  (joinedRows st collection).filterMap (fun cd =>
    match decodeEmbedding cd.1.embedding with
    | none => none
    | some v =>
        some ⟨cd.1.content, cd.1.sourceFile, cd.1.lineStart, cd.1.lineEnd,
          cd.1.chunkIndex, cd.2.s3Key, cosineSimilarity queryEmbedding v⟩)

/-- Descending-similarity order used by `scored.sort(key=..., reverse=True)`.
Python's sort is stable, hence its output is the unique stable descending
ordering, which `List.insertionSort` with this relation also produces. -/
def hitDesc (a b : SearchHit) : Prop :=
  Sim.leB b.similarity a.similarity = true

instance : DecidableRel hitDesc := fun a b =>
  inferInstanceAs (Decidable (Sim.leB b.similarity a.similarity = true))

/-- Model of `search_vectors` (storage.py, brute-force backend): score all
rows of the collection, sort by descending similarity (stable), and return
the first `max(1, top_k)` hits. -/
def searchVectors (st : Store) (queryEmbedding : List ℚ) (collection : String)
    (topK : ℕ) : List SearchHit :=
  (List.insertionSort hitDesc (scoredHits st queryEmbedding collection)).take (max 1 topK)

end Storage

namespace Database

/-- Row of the Postgres `chunks` table: the `embedding` column has SQL type
`vector(dim)`, so it is a decoded float list by construction. -/
structure PgChunkRow where
  documentId : ℕ
  chunkIndex : ℕ
  content : List Char
  embedding : List ℚ
  tokenCount : ℕ
  sourceFile : String
  lineStart : ℕ
  lineEnd : ℕ
deriving DecidableEq

/-- State of the Postgres backend: the fixed dimension of the
`chunks.embedding` column (if the schema fixes one) plus the tables. -/
structure PgStore where
  schemaDim : Option ℕ
  nextDocId : ℕ
  docs : List DocRow
  chunks : List PgChunkRow
deriving DecidableEq

/-- Model of `validate_embedding_dimension` (database.py): when the schema
fixes no dimension the function returns without writing anything; otherwise
it fails exactly on mismatch.  The returned store is always unchanged — the
function only reads `pg_attribute`. -/
def validateEmbeddingDimension (st : PgStore) (providerDimension : ℕ) :
    Except String PgStore :=
  match st.schemaDim with
  | none => .ok st
  | some schemaDimension =>
      if schemaDimension ≠ providerDimension then
        .error "Embedding dimension mismatch"
      else .ok st

/-- Model of `migrate_embedding_dimension` (database.py): same-dimension
calls are a no-op report; otherwise count everything, `DELETE FROM documents`
(cascading to chunks), retype the vector column. -/
def migrateEmbeddingDimension (st : PgStore) (newDimension : ℕ) :
    Except String (PgStore × Storage.MigrationReport) :=
  if newDimension = 0 then .error "new_dimension must be a positive integer"
  else if st.schemaDim = some newDimension then
    .ok (st, ⟨st.schemaDim, newDimension, 0, 0, false⟩)
  else
    .ok
      ({ st with
          docs := [],
          chunks := st.chunks.filter
            (fun c => !(st.docs.any (fun d => d.id == c.documentId))),
          schemaDim := some newDimension },
        ⟨st.schemaDim, newDimension, st.docs.length, st.chunks.length, true⟩)

/-- The SQL join of `search_vectors` (database.py) in table order. -/
def joinedRows (st : PgStore) (collection : String) : List (PgChunkRow × DocRow) :=
  st.chunks.filterMap (fun c =>
    match st.docs.find? (fun d => d.id == c.documentId && d.collection == collection) with
    | some d => some (c, d)
    | none => none)

/-- Scored rows of the Postgres query: the SQL expression
`1 - (c.embedding <=> %s::vector)` is one minus the cosine distance, i.e.
cosine similarity itself. -/
def scoredHits (st : PgStore) (queryEmbedding : List ℚ) (collection : String) :
    List SearchHit :=
  (joinedRows st collection).map (fun cd =>
    ⟨cd.1.content, cd.1.sourceFile, cd.1.lineStart, cd.1.lineEnd,
      cd.1.chunkIndex, cd.2.s3Key, cosineSimilarity queryEmbedding cd.1.embedding⟩)

/-- Model of `search_vectors` (database.py): `ORDER BY c.embedding <=> q`
ascending — equivalently descending similarity — then `LIMIT top_k`.  SQL
leaves the order of ties unspecified; the model resolves ties by table order
(any conclusion proved below uses only sortedness and length). -/
def searchVectors (st : PgStore) (queryEmbedding : List ℚ) (collection : String)
    (topK : ℕ) : List SearchHit :=
  (List.insertionSort Storage.hitDesc (scoredHits st queryEmbedding collection)).take topK

end Database

/-! ### SHA-256 (model of `hashlib.sha256(...).hexdigest()`)

`compute_sha256` (database.py) delegates to the Python standard library,
which is external to the repository; it is modelled here concretely by the
FIPS 180-4 SHA-256 algorithm on UTF-8 bytes.  Words are naturals reduced
modulo `2^32`. -/

/-- Reduction modulo the 32-bit word size. -/
def w32 (x : ℕ) : ℕ := x % 4294967296

/-- Right rotation of a 32-bit word. -/
def rotr (n x : ℕ) : ℕ := w32 ((x >>> n) ||| (x <<< (32 - n)))

/-- SHA-256 round constants, rounds 0-7. -/
def sha256K0 : List ℕ :=
  [0x428a2f98, 0x71374491, 0xb5c0fbcf, 0xe9b5dba5, 0x3956c25b, 0x59f111f1, 0x923f82a4, 0xab1c5ed5]

/-- SHA-256 round constants, rounds 8-15. -/
def sha256K1 : List ℕ :=
  [0xd807aa98, 0x12835b01, 0x243185be, 0x550c7dc3, 0x72be5d74, 0x80deb1fe, 0x9bdc06a7, 0xc19bf174]

/-- SHA-256 round constants, rounds 16-23. -/
def sha256K2 : List ℕ :=
  [0xe49b69c1, 0xefbe4786, 0x0fc19dc6, 0x240ca1cc, 0x2de92c6f, 0x4a7484aa, 0x5cb0a9dc, 0x76f988da]

/-- SHA-256 round constants, rounds 24-31. -/
def sha256K3 : List ℕ :=
  [0x983e5152, 0xa831c66d, 0xb00327c8, 0xbf597fc7, 0xc6e00bf3, 0xd5a79147, 0x06ca6351, 0x14292967]

/-- SHA-256 round constants, rounds 32-39. -/
def sha256K4 : List ℕ :=
  [0x27b70a85, 0x2e1b2138, 0x4d2c6dfc, 0x53380d13, 0x650a7354, 0x766a0abb, 0x81c2c92e, 0x92722c85]

/-- SHA-256 round constants, rounds 40-47. -/
def sha256K5 : List ℕ :=
  [0xa2bfe8a1, 0xa81a664b, 0xc24b8b70, 0xc76c51a3, 0xd192e819, 0xd6990624, 0xf40e3585, 0x106aa070]

/-- SHA-256 round constants, rounds 48-55. -/
def sha256K6 : List ℕ :=
  [0x19a4c116, 0x1e376c08, 0x2748774c, 0x34b0bcb5, 0x391c0cb3, 0x4ed8aa4a, 0x5b9cca4f, 0x682e6ff3]

/-- SHA-256 round constants, rounds 56-63. -/
def sha256K7 : List ℕ :=
  [0x748f82ee, 0x78a5636f, 0x84c87814, 0x8cc70208, 0x90befffa, 0xa4506ceb, 0xbef9a3f7, 0xc67178f2]

/-- The 64 SHA-256 round constants. -/
def sha256K : List ℕ :=
  sha256K0 ++ sha256K1 ++ sha256K2 ++ sha256K3 ++ sha256K4 ++ sha256K5 ++ sha256K6 ++ sha256K7

/-- Big-endian 8-byte encoding of the message bit length. -/
def be64 (n : ℕ) : List ℕ :=
  [n / 2 ^ 56 % 256, n / 2 ^ 48 % 256, n / 2 ^ 40 % 256, n / 2 ^ 32 % 256,
   n / 2 ^ 24 % 256, n / 2 ^ 16 % 256, n / 2 ^ 8 % 256, n % 256]

/-- SHA-256 message padding: `0x80`, zeros to 56 mod 64, 8-byte bit length. -/
def sha256Pad (msg : List ℕ) : List ℕ :=
  msg ++ 0x80 :: List.replicate ((64 - (msg.length + 9) % 64) % 64) 0 ++ be64 (8 * msg.length)

/-- Split a byte string into 64-byte blocks; structural recursion on a fuel
that each step (consuming 64 ≥ 1 bytes) can never exhaust when it starts at
the length of the list. -/
def toBlocksAux : ℕ → List ℕ → List (List ℕ)
  | 0, _ => []
  | _, [] => []
  | fuel + 1, x :: xs => (x :: xs).take 64 :: toBlocksAux fuel ((x :: xs).drop 64)

/-- Split a byte string into 64-byte blocks. -/
def toBlocks (l : List ℕ) : List (List ℕ) :=
  toBlocksAux l.length l

/-- Combine bytes into big-endian 32-bit words. -/
def bytesToWords : List ℕ → List ℕ
  | b0 :: b1 :: b2 :: b3 :: rest => (b0 * 2 ^ 24 + b1 * 2 ^ 16 + b2 * 2 ^ 8 + b3) :: bytesToWords rest
  | _ => []

/-- Small sigma-0 of the message schedule. -/
def ssig0 (x : ℕ) : ℕ := rotr 7 x ^^^ rotr 18 x ^^^ (x >>> 3)

/-- Small sigma-1 of the message schedule. -/
def ssig1 (x : ℕ) : ℕ := rotr 17 x ^^^ rotr 19 x ^^^ (x >>> 10)

/-- Extend the 16-word schedule by `n` further words. -/
def extendSchedule : List ℕ → ℕ → List ℕ
  | acc, 0 => acc
  | acc, n + 1 =>
      extendSchedule
        (acc ++ [w32 (ssig1 (acc.getD (acc.length - 2) 0) + acc.getD (acc.length - 7) 0 +
          ssig0 (acc.getD (acc.length - 15) 0) + acc.getD (acc.length - 16) 0)]) n

/-- The 64-word message schedule of one block. -/
def schedule (block : List ℕ) : List ℕ :=
  extendSchedule (bytesToWords block) 48

/-- The eight 32-bit words of the SHA-256 working state. -/
structure Hash8 where
  a : ℕ
  b : ℕ
  c : ℕ
  d : ℕ
  e : ℕ
  f : ℕ
  g : ℕ
  h : ℕ
deriving DecidableEq

/-- Initial SHA-256 state. -/
def sha256H0 : Hash8 :=
  ⟨0x6a09e667, 0xbb67ae85, 0x3c6ef372, 0xa54ff53a, 0x510e527f, 0x9b05688c, 0x1f83d9ab, 0x5be0cd19⟩

/-- One SHA-256 compression round. -/
def compressStep (st : Hash8) (k w : ℕ) : Hash8 :=
  let s1 := rotr 6 st.e ^^^ rotr 11 st.e ^^^ rotr 25 st.e
  let ch := (st.e &&& st.f) ^^^ ((st.e ^^^ 0xffffffff) &&& st.g)
  let temp1 := w32 (st.h + s1 + ch + k + w)
  let s0 := rotr 2 st.a ^^^ rotr 13 st.a ^^^ rotr 22 st.a
  let maj := (st.a &&& st.b) ^^^ (st.a &&& st.c) ^^^ (st.b &&& st.c)
  let temp2 := w32 (s0 + maj)
  ⟨w32 (temp1 + temp2), st.a, st.b, st.c, w32 (st.d + temp1), st.e, st.f, st.g⟩

/-- Compress one 64-byte block into the state. -/
def compressBlock (st : Hash8) (block : List ℕ) : Hash8 :=
  let final := (sha256K.zip (schedule block)).foldl (fun acc kw => compressStep acc kw.1 kw.2) st
  ⟨w32 (st.a + final.a), w32 (st.b + final.b), w32 (st.c + final.c), w32 (st.d + final.d),
   w32 (st.e + final.e), w32 (st.f + final.f), w32 (st.g + final.g), w32 (st.h + final.h)⟩

/-- SHA-256 of a byte string, as the final eight-word state. -/
def sha256Hash (msg : List ℕ) : Hash8 :=
  (toBlocks (sha256Pad msg)).foldl compressBlock sha256H0

/-- The eight hex nibbles of a 32-bit word, most significant first. -/
def wordNibbles (w : ℕ) : List ℕ :=
  [w / 16 ^ 7 % 16, w / 16 ^ 6 % 16, w / 16 ^ 5 % 16, w / 16 ^ 4 % 16,
   w / 16 ^ 3 % 16, w / 16 ^ 2 % 16, w / 16 % 16, w % 16]

/-- The 64 hex nibbles of a digest. -/
def hashNibbles (st : Hash8) : List ℕ :=
  ([st.a, st.b, st.c, st.d, st.e, st.f, st.g, st.h].map wordNibbles).flatten

/-- The 64 hex nibbles of the SHA-256 digest of a byte string. -/
def sha256Nibbles (msg : List ℕ) : List ℕ :=
  hashNibbles (sha256Hash msg)

/-- Lowercase hex digit of a nibble. -/
def hexChar (n : ℕ) : Char :=
  if n < 10 then Char.ofNat (48 + n) else Char.ofNat (87 + n)

/-- UTF-8 encoding of one character. -/
def utf8Char (c : Char) : List ℕ :=
  let n := c.toNat
  if n < 0x80 then [n]
  else if n < 0x800 then [0xc0 + n / 64, 0x80 + n % 64]
  else if n < 0x10000 then [0xe0 + n / 4096, 0x80 + n / 64 % 64, 0x80 + n % 64]
  else [0xf0 + n / 262144, 0x80 + n / 4096 % 64, 0x80 + n / 64 % 64, 0x80 + n % 64]

/-- UTF-8 encoding of a string, i.e. Python `content.encode("utf-8")`. -/
def utf8Bytes (s : String) : List ℕ :=
  s.data.flatMap utf8Char

/-- Model of `compute_sha256` (database.py):
`hashlib.sha256(content.encode("utf-8")).hexdigest()`. -/
def computeSha256 (content : String) : String :=
  String.mk ((sha256Nibbles (utf8Bytes content)).map hexChar)

/-! ### Index versioning (`build_index_version`, storage.py) -/

/-- JSON value stored in collection index metadata: the five
version-relevant fields are strings (`repo_commit`, provider and model ids)
or integers (`chunk_size`, `chunk_overlap`). -/
inductive JVal where
  | str (s : String)
  | int (n : ℤ)
deriving DecidableEq

/-- Python `metadata.get(key, "")`. -/
def jGet (metadata : List (String × JVal)) (key : String) : JVal :=
  ((metadata.find? (fun kv => kv.1 == key)).map (·.2)).getD (.str "")

/-- The `INDEX_VERSION_KEYS` constant (storage.py). -/
def indexVersionKeys : List String :=
  ["repo_commit", "embedding_provider", "embedding_model", "chunk_size", "chunk_overlap"]

/-- Four lowercase hex digits, for a JSON `\uXXXX` escape. -/
def hex4 (n : ℕ) : List Char :=
  [hexChar (n / 4096 % 16), hexChar (n / 256 % 16), hexChar (n / 16 % 16), hexChar (n % 16)]

/-- JSON escaping of one character as performed by `json.dumps` with the
default `ensure_ascii=True` (non-ASCII and control characters become
`\uXXXX`, astral characters a surrogate pair). -/
def jsonEscapeChar (c : Char) : List Char :=
  if c = '"' then ['\\', '"']
  else if c = '\\' then ['\\', '\\']
  else if c = '\n' then ['\\', 'n']
  else if c = '\r' then ['\\', 'r']
  else if c = '\t' then ['\\', 't']
  else if c = '\x08' then ['\\', 'b']
  else if c = '\x0c' then ['\\', 'f']
  else if c.toNat < 0x20 ∨ 0x7e < c.toNat then
    if c.toNat < 0x10000 then '\\' :: 'u' :: hex4 c.toNat
    else
      '\\' :: 'u' :: hex4 (0xd800 + (c.toNat - 0x10000) / 1024) ++
        '\\' :: 'u' :: hex4 (0xdc00 + (c.toNat - 0x10000) % 1024)
  else [c]

/-- JSON string literal produced by `json.dumps` for a Python `str`. -/
def jsonString (s : String) : String :=
  String.mk ('"' :: s.data.flatMap jsonEscapeChar ++ ['"'])

/-- JSON serialization of a metadata value. -/
def jValSerialize : JVal → String
  | .str s => jsonString s
  | .int n => toString n

/-- Model of the `json.dumps(normalized, sort_keys=True, separators=(",", ":"))`
call inside `build_index_version`: the normalized dict restricted to
`INDEX_VERSION_KEYS`, keys emitted in sorted order. -/
def serializeIndexVersionPayload (metadata : List (String × JVal)) : String :=
  "\x7b\"chunk_overlap\":" ++ jValSerialize (jGet metadata "chunk_overlap") ++
    ",\"chunk_size\":" ++ jValSerialize (jGet metadata "chunk_size") ++
    ",\"embedding_model\":" ++ jValSerialize (jGet metadata "embedding_model") ++
    ",\"embedding_provider\":" ++ jValSerialize (jGet metadata "embedding_provider") ++
    ",\"repo_commit\":" ++ jValSerialize (jGet metadata "repo_commit") ++ "\x7d"

/-- Python string slicing `s[:16]` (by characters). -/
def pySlice16 (s : String) : String :=
  String.mk (s.data.take 16)

/-- Model of `build_index_version` (storage.py):
`compute_sha256(serialized)[:16]`. -/
def buildIndexVersion (metadata : List (String × JVal)) : String :=
  pySlice16 (computeSha256 (serializeIndexVersionPayload metadata))

/-! ### Normalizer/Chunker (`services/ingest/app/chunker.py`) -/

namespace Chunker

/-- Sequential effect of `text.replace("\r\n", "\n").replace("\r", "\n")`. -/
def replaceCR : List Char → List Char
  | [] => []
  | '\r' :: '\n' :: rest => '\n' :: replaceCR rest
  | '\r' :: rest => '\n' :: replaceCR rest
  | c :: rest => c :: replaceCR rest

/-- Characters kept by `re.sub(r"[^\x09\x0a\x20-\x7e\x80-\xff]", "", text)`:
tab, newline, printable ASCII and the Latin-1 range. -/
def isKeptChar (c : Char) : Bool :=
  c.toNat == 9 || c.toNat == 10 || (32 ≤ c.toNat && c.toNat ≤ 126) ||
    (128 ≤ c.toNat && c.toNat ≤ 255)

/-- Emit a run of `n` newlines capped at two, the effect of
`re.sub(r"\n{3,}", "\n\n", ...)` on one maximal newline run. -/
def emitNewlineRun (n : ℕ) (rest : List Char) : List Char :=
  List.replicate (min n 2) '\n' ++ rest

/-- Collapse runs of three or more newlines to exactly two, tracking the
length of the current newline run. -/
def collapseNewlines : ℕ → List Char → List Char
  | n, [] => emitNewlineRun n []
  | n, '\n' :: rest => collapseNewlines (n + 1) rest
  | n, c :: rest => emitNewlineRun n (c :: collapseNewlines 0 rest)

/-- Model of `normalize_text` (chunker.py): normalize line endings, drop
non-printable control characters, collapse blank-line runs, strip. -/
def normalizeText (text : List Char) : List Char :=
  pyStrip (collapseNewlines 0 ((replaceCR text).filter isKeptChar))

/-- Model of `estimate_tokens` (chunker.py): `max(1, len(text) // 4)`. -/
def estimateTokens (text : List Char) : ℕ :=
  max 1 (text.length / 4)

/-- Python `text[:pos].count("\n")`. -/
def countNewlines (l : List Char) : ℕ :=
  (l.filter (· == '\n')).length

/-- Model of Python `text.rfind(pat, start, stop)`: the largest index `i`
with `start ≤ i` at which `pat` occurs entirely inside `text[start:stop]`,
or `none` (Python's `-1`). -/
def pyRfind (pat text : List Char) (start stop : ℕ) : Option ℕ :=
  ((List.range (min stop text.length + 1)).filter (fun i =>
    decide (start ≤ i) && decide (i + pat.length ≤ min stop text.length) &&
      pat.isPrefixOf (text.drop i))).getLast?

/-- One `Chunk` produced by the chunker (chunker.py dataclass). -/
structure Chunk where
  content : List Char
  chunkIndex : ℕ
  lineStart : ℕ
  lineEnd : ℕ
  tokenCount : ℕ
  sourceFile : String
deriving DecidableEq

/-- End position of the window starting at `pos`: the raw window end, pulled
back to the best break point (paragraph, sentence, line) found behind the
window searching from its midpoint. -/
def chunkEndPos (text : List Char) (pos charSize : ℕ) : ℕ :=
  let endPos := min (pos + charSize) text.length
  if endPos < text.length then
    match pyRfind ['\n', '\n'] text (pos + charSize / 2) endPos with
    | some paraBreak => paraBreak + 1
    | none =>
      match pyRfind ['.', ' '] text (pos + charSize / 2) endPos with
      | some sentenceBreak => sentenceBreak + 2
      | none =>
        match pyRfind ['\n'] text (pos + charSize / 2) endPos with
        | some lineBreak => lineBreak + 1
        | none => endPos
  else endPos

/-- The chunking walk of `chunk_text`.  The recursion is structural on a
fuel initialized to `text.length`; because every continuing iteration
advances the cursor by `max(end_pos - current_pos - char_overlap, 1) ≥ 1`
characters, that fuel is never exhausted (`chunkLoop_fuel_irrelevant`), so
this is exactly the Python `while current_pos < text_len` loop. -/
def chunkLoop (text : List Char) (charSize charOverlap : ℕ) (sourceFile : String) :
    ℕ → ℕ → ℕ → List Chunk
  | 0, _, _ => []
  | fuel + 1, pos, idx =>
    if pos < text.length then
      let endPos := chunkEndPos text pos charSize
      let content := pyStrip ((text.drop pos).take (endPos - pos))
      if content = [] then []
      else
        let c : Chunk := ⟨content, idx, countNewlines (text.take pos) + 1,
          countNewlines (text.take endPos) + 1, estimateTokens content, sourceFile⟩
        if text.length ≤ endPos then [c]
        else
          c :: chunkLoop text charSize charOverlap sourceFile fuel
            (pos + max (endPos - pos - charOverlap) 1) (idx + 1)
    else []

/-- Model of `chunk_text` (chunker.py).  Token budgets are converted to
character budgets (`× 4`); natural subtraction in the cursor advance agrees
with Python's `max(advance, 1)` since a non-positive advance also yields
`1`. -/
def chunkText (text : List Char) (chunkSize chunkOverlap : ℕ) (sourceFile : String) :
    List Chunk :=
  if pyStrip text = [] then []
  else chunkLoop text (chunkSize * 4) (chunkOverlap * 4) sourceFile text.length 0 0

end Chunker

/-! ### Ingestion pipeline (`_ingest_file`, pipeline.py) -/

namespace Pipeline

/-- Embedding-provider collaborator (spec §6): batched, order-preserving
`embed` plus a fixed `dimension`. -/
structure EmbeddingProvider where
  dimension : ℕ
  embed : List (List Char) → List (List ℚ)

/-- Per-file outcome of `_ingest_file`: the silent return on empty
normalized text, the dedup skip (`stats.skipped_docs += 1`), the silent
return when no chunks were produced, or a successful index
(`stats.indexed_docs += 1`, `stats.total_chunks += inserted`). -/
inductive FileOutcome where
  | emptyFile
  | skipped
  | noChunks
  | indexed (chunksInserted : ℕ)
deriving DecidableEq

/-- Contribution of a file outcome to `stats.indexed_docs`. -/
def FileOutcome.indexedDelta : FileOutcome → ℕ
  | .indexed _ => 1
  | _ => 0

/-- Contribution of a file outcome to `stats.skipped_docs`. -/
def FileOutcome.skippedDelta : FileOutcome → ℕ
  | .skipped => 1
  | _ => 0

/-- Python `Path(p).name`: the basename after the last slash. -/
def pyBasename (p : String) : String :=
  String.mk ((p.data.reverse.takeWhile (fun c => !(c == '/'))).reverse)

/-- Model of `_ingest_file` (pipeline.py) from the point where the raw file
text has been extracted (extraction itself is filesystem I/O, spec §6).
The `size_bytes` metadata entry, read from `file_path.stat()`, is omitted:
it is filesystem state never read back by the engine.  Steps: normalize,
fingerprint, dedup against the current index version (hash-only in the
legacy empty-version case), chunk, embed, upsert document then chunks. -/
def ingestFile (provider : EmbeddingProvider) (st : Store) (collection : String)
    (indexVersionRaw : String) (chunkSize chunkOverlap : ℕ) (filePath : String)
    (rawText : List Char) : Store × FileOutcome :=
  let text := Chunker.normalizeText rawText
  if text = [] then (st, .emptyFile)
  else
    let sha := computeSha256 (String.mk text)
    let indexVersion := pyStripStr indexVersionRaw
    if indexVersion ≠ "" ∧ (Storage.documentExistsForIndex st sha collection indexVersion).isSome then
      (st, .skipped)
    else if indexVersion = "" ∧ (Storage.documentExists st sha collection).isSome then
      (st, .skipped)
    else
      let chunks := Chunker.chunkText text chunkSize chunkOverlap filePath
      if chunks = [] then (st, .noChunks)
      else
        let embeddings := provider.embed (chunks.map (·.content))
        let upserted := Storage.upsertDocument st filePath sha collection
          [("filename", pyBasename filePath),
           ("index_version", if indexVersion = "" then "unknown" else indexVersion)]
        let records := (chunks.zip embeddings).map (fun ce =>
          (⟨ce.1.chunkIndex, ce.1.content, ce.2, ce.1.tokenCount, ce.1.sourceFile,
            ce.1.lineStart, ce.1.lineEnd⟩ : Storage.ChunkRecord))
        let inserted := Storage.upsertChunks upserted.1 upserted.2 records
        (inserted.1, .indexed inserted.2)

end Pipeline

/-! ### Lazy repo-file tracking (storage.py) -/

namespace Storage

/-- Model of `get_repo_meta`: owner/repo/ref of the collection's rows (the
SQL `GROUP BY ... LIMIT 1` returns one unspecified group; the model takes
the first row's, and the retriever reads only these three fields). -/
def getRepoMeta (st : Store) (collection : String) : Option (String × String × String) :=
  match st.repoFiles.filter (fun r => r.collection == collection) with
  | [] => none
  | r :: _ => some (r.owner, r.repo, r.ref)

/-- Model of `get_unembedded_files`: the file paths of the collection's rows
among `paths` that are not yet embedded, in table order. -/
def getUnembeddedFiles (st : Store) (collection : String) (paths : List String) :
    List String :=
  (st.repoFiles.filter (fun r =>
    r.collection == collection && paths.contains r.filePath && !r.embedded)).map (·.filePath)

/-- Model of `mark_files_embedded`: set the `embedded` flag on the matching
rows; returns the SQL rowcount (all matched rows, already-embedded ones
included). -/
def markFilesEmbedded (st : Store) (collection : String) (paths : List String) :
    Store × ℕ :=
  ({ st with
      repoFiles := st.repoFiles.map (fun r =>
        if r.collection == collection && paths.contains r.filePath then
          { r with embedded := true }
        else r) },
    (st.repoFiles.filter (fun r =>
      r.collection == collection && paths.contains r.filePath)).length)

end Storage

/-! ### Reranker / diversifier and lazy retrieval (retriever.py) -/

namespace Retriever

/-- The `BROAD_QUERY_TERMS` constant (retriever.py). -/
def broadQueryTerms : List String :=
  ["architecture", "arquitecture", "overview", "system", "design", "high level",
   "how does this work", "what is this project", "what can i ask", "onboard", "onboarding"]

/-- The `HIGH_LEVEL_SOURCE_HINTS` constant (retriever.py). -/
def highLevelSourceHints : List String :=
  ["readme", "docs/", "manual", "architecture", "runbooks", "user-guide", ".md"]

/-- The `MANUAL_SOURCE_HINTS` constant (retriever.py). -/
def manualSourceHints : List String :=
  ["project_overview.md", "architecture_map.md", "codebase_manual.md", "api_manual.md",
   "architecture_diagram.md", "operations_runbook.md", "unknowns_and_gaps.md",
   "database_manual.md"]

/-- The `LOW_VALUE_PATH_HINTS` constant (retriever.py). -/
def lowValuePathHints : List String :=
  [".egg-info/", ".egg-info\\", "__pycache__/", "__pycache__\\", ".pytest_cache/",
   ".pytest_cache\\", ".ruff_cache/", ".ruff_cache\\", "build/package/", "build/package\\"]

/-- The `CODE_SUFFIXES` constant (retriever.py). -/
def codeSuffixes : List String :=
  [".py", ".ts", ".tsx", ".js", ".jsx", ".go", ".rs", ".java", ".kt"]

/-- Model of `is_broad_query`: substring match of any broad term against the
stripped, lowercased question. -/
def isBroadQuery (question : String) : Bool :=
  broadQueryTerms.any (fun t => strContains (pyLower (pyStripStr question)) t)

/-- Model of `is_low_value_source`. -/
def isLowValueSource (source : String) : Bool :=
  lowValuePathHints.any (fun h => strContains (pyLower source) h)

/-- Model of `is_high_level_source`. -/
def isHighLevelSource (source : String) : Bool :=
  let src := pyLower source
  if codeSuffixes.any (fun s => strEndsWith src s) then false
  else if [".md", ".txt", ".rst", ".adoc"].any (fun s => strEndsWith src s) then true
  else highLevelSourceHints.any (fun h => strContains src h)

/-- Model of `is_manual_source`. -/
def isManualSource (source : String) : Bool :=
  manualSourceHints.any (fun h => strContains (pyLower source) h)

/-- Characters of the regex class `[a-zA-Z0-9_.-]`. -/
def isWordDotChar (c : Char) : Bool :=
  c.isAlpha || c.isDigit || c == '_' || c == '.' || c == '-'

/-- Split a character list into its maximal runs of characters satisfying
`p` (single left-to-right pass with an accumulator). -/
def splitRunsAux (p : Char → Bool) : List Char → List Char → List (List Char)
  | acc, [] => if acc = [] then [] else [acc.reverse]
  | acc, c :: rest =>
      if p c then splitRunsAux p (c :: acc) rest
      else if acc = [] then splitRunsAux p [] rest
      else acc.reverse :: splitRunsAux p [] rest

/-- Match of the filename regex `([a-zA-Z0-9_.-]+\.[a-zA-Z0-9_-]+)` inside
one maximal `[a-zA-Z0-9_.-]` run: the greedy first group ends at the last
dot that is followed by a non-dot class character (and must be non-empty,
so that dot's index must be positive); the suffix then extends to the next
dot or the end of the run.  The rest of the run is dots only, so each run
contributes at most one match. -/
def runToken (r : List Char) : Option (List Char) :=
  match ((List.range r.length).filter (fun j =>
      decide (1 ≤ j) && (r.getD j ' ' == '.') && decide (j + 1 < r.length) &&
        !(r.getD (j + 1) ' ' == '.'))).getLast? with
  | none => none
  | some j =>
      some (r.take (j + 1 + ((r.drop (j + 1)).takeWhile (fun c => !(c == '.'))).length))

/-- Model of `extract_file_hints`: filename-looking tokens of length at
least 4 extracted from the lowercased question.  Python returns a set used
only through `any(hint in ... for hint in hints)`, so a list with possible
duplicates is an equivalent model. -/
def extractFileHints (question : String) : List (List Char) :=
  ((splitRunsAux isWordDotChar [] (pyLower question).data).filterMap runToken).filter
    (fun t => decide (4 ≤ t.length))

/-- First-character class of the ownership token regex `[a-z0-9]`
(applied to the lowercased question). -/
def isTokenStart (c : Char) : Bool :=
  ('a' ≤ c && c ≤ 'z') || ('0' ≤ c && c ≤ '9')

/-- Character class `[a-z0-9_-]` of the ownership token regex. -/
def isTokenChar (c : Char) : Bool :=
  isTokenStart c || c == '_' || c == '-'

/-- Model of `tokenize_question` (ownership.py): matches of
`[a-z0-9][a-z0-9_-]{1,}` (within a maximal class run, the match starts at
the first `[a-z0-9]` character and extends to the end of the run, and needs
length at least 2), kept when of length at least 3.  Python returns a set;
the reranker only tests emptiness and hands the tokens to the ownership
collaborator, so a list model suffices. -/
def tokenizeQuestion (question : String) : List (List Char) :=
  ((splitRunsAux isTokenChar [] (pyLower question).data).filterMap (fun r =>
    let t := r.dropWhile (fun c => !(isTokenStart c))
    if 2 ≤ t.length then some t else none)).filter (fun t => decide (3 ≤ t.length))

/-- Model of `source_bonus` (retriever.py).  The ownership-mapping
collaborator (spec §6) is the parameter `ownershipBonus`, standing for
`ownership_bonus_for_source(source, question_tokens=...)`, which is invoked
on the original-case source path exactly when the question produced
tokens. -/
def sourceBonus (ownershipBonus : String → ℚ) (questionTokensNonempty : Bool)
    (source : String) (broad : Bool) : ℚ :=
  let src := pyLower source
  (if isLowValueSource src then -(0.30 : ℚ) else 0) +
    (if questionTokensNonempty then ownershipBonus source else 0) +
    (if broad && isManualSource src then (0.18 : ℚ) else 0) +
    (if broad && highLevelSourceHints.any (fun h => strContains src h) then (0.12 : ℚ) else 0) +
    (if broad && isHighLevelSource src then (0.10 : ℚ) else 0) +
    (if broad && strEndsWith src "pyproject.toml" then -(0.04 : ℚ) else 0)

/-! The reranker sorts by `score = similarity + bonus`, a real number of the
form `d/√s + q`.  The comparison of two such numbers is decided exactly by
the classical two-radical procedure below (normalize each radical term,
compare signs, square twice); `sqrtDiffLe_iff` proves it agrees with the
real order. -/

/-- Normalize a term `a·√u`: a zero factor (or a non-positive radicand,
which never arises) is replaced by `0·√1`, so afterwards `u > 0` and the
term's sign is the sign of `a`. -/
def normSqrtTerm (a u : ℚ) : ℚ × ℚ :=
  if a = 0 ∨ u ≤ 0 then (0, 1) else (a, u)

/-- Decide `k·√w ≤ r` for `w ≥ 0`. -/
def sqrtMulLeRat (k w r : ℚ) : Bool :=
  if 0 ≤ k then decide (0 ≤ r) && decide (k ^ 2 * w ≤ r ^ 2)
  else if 0 ≤ r then true else decide (r ^ 2 ≤ k ^ 2 * w)

/-- Decide `r ≤ k·√w` for `w ≥ 0`. -/
def ratLeSqrtMul (r k w : ℚ) : Bool :=
  if 0 ≤ k then (if r ≤ 0 then true else decide (r ^ 2 ≤ k ^ 2 * w))
  else if 0 < r then false else decide (k ^ 2 * w ≤ r ^ 2)

/-- Decide `a·√u ≤ b·√v` for normalized terms (`u, v > 0`). -/
def sqrtProdLe (a u b v : ℚ) : Bool :=
  if 0 ≤ a then (if 0 ≤ b then decide (a ^ 2 * u ≤ b ^ 2 * v) else false)
  else if 0 ≤ b then true else decide (b ^ 2 * v ≤ a ^ 2 * u)

/-- Decide `a·√u − b·√v ≤ c` for `u, v ≥ 0`: normalize both terms, compare
the radicals, then square against `c` on the side of known sign. -/
def sqrtDiffLe (a u b v c : ℚ) : Bool :=
  let p := normSqrtTerm a u
  let q := normSqrtTerm b v
  if sqrtProdLe p.1 p.2 q.1 q.2 then
    if 0 ≤ c then true
    else sqrtMulLeRat (2 * p.1 * q.1) (p.2 * q.2) (q.1 ^ 2 * q.2 + p.1 ^ 2 * p.2 - c ^ 2)
  else
    if c ≤ 0 then false
    else ratLeSqrtMul (p.1 ^ 2 * p.2 + q.1 ^ 2 * q.2 - c ^ 2) (2 * p.1 * q.1) (p.2 * q.2)

/-- Rerank score of a candidate: its similarity plus the accumulated
rational bonus, denoting the real number `sim.toReal + bonus`. -/
structure Score where
  sim : Sim
  bonus : ℚ
deriving DecidableEq

/-- Real value of a rerank score. -/
noncomputable def Score.toReal (x : Score) : ℝ :=
  x.sim.toReal + x.bonus

/-- Decidable comparison of rerank scores, writing each similarity `d/√s`
as `(d/s)·√s`; agrees with the real order (`Score.leB_iff`). -/
def Score.leB (x y : Score) : Bool :=
  sqrtDiffLe (x.sim.d / x.sim.s) x.sim.s (y.sim.d / y.sim.s) y.sim.s (y.bonus - x.bonus)

/-- Descending-score order of `scored.sort(key=lambda item: item[0],
reverse=True)` (stable). -/
def scoredDesc (a b : Score × SearchHit) : Prop :=
  Score.leB b.1 a.1 = true

instance : DecidableRel scoredDesc := fun a b =>
  inferInstanceAs (Decidable (Score.leB b.1 a.1 = true))

/-- The deduplication key of `_chunk_key` (retriever.py). -/
def hitKey (chunk : SearchHit) : String × ℕ × ℕ × ℕ :=
  (chunk.sourceFile, chunk.lineStart, chunk.lineEnd, chunk.chunkIndex)

/-- First pass of `_select_diverse`: greedily keep candidates whose
lowercased source and chunk key are both unseen; returns early (flag
`true`) once `limit` selections are made. -/
def selectDiversePhase1 (limit : ℕ) :
    List SearchHit → List SearchHit → List String → List (String × ℕ × ℕ × ℕ) →
      List SearchHit × List (String × ℕ × ℕ × ℕ) × Bool
  | [], selected, _, seenKeys => (selected, seenKeys, false)
  | chunk :: rest, selected, seenSources, seenKeys =>
      let source := pyLower chunk.sourceFile
      if source ∈ seenSources ∨ hitKey chunk ∈ seenKeys then
        selectDiversePhase1 limit rest selected seenSources seenKeys
      else
        let selected' := selected ++ [chunk]
        let seenKeys' := hitKey chunk :: seenKeys
        if limit ≤ selected'.length then (selected', seenKeys', true)
        else selectDiversePhase1 limit rest selected' (source :: seenSources) seenKeys'

/-- Second pass of `_select_diverse`: pad with runner-ups whose chunk key is
still unseen, stopping at `limit`. -/
def selectDiversePhase2 (limit : ℕ) :
    List SearchHit → List SearchHit → List (String × ℕ × ℕ × ℕ) → List SearchHit
  | [], selected, _ => selected
  | chunk :: rest, selected, seenKeys =>
      if hitKey chunk ∈ seenKeys then selectDiversePhase2 limit rest selected seenKeys
      else
        let selected' := selected ++ [chunk]
        if limit ≤ selected'.length then selected'
        else selectDiversePhase2 limit rest selected' (hitKey chunk :: seenKeys)

/-- Model of `_select_diverse` (retriever.py). -/
def selectDiverse (candidates : List SearchHit) (limit : ℕ) : List SearchHit :=
  match selectDiversePhase1 limit candidates [] [] [] with
  | (selected, _, true) => selected
  | (selected, seenKeys, false) => selectDiversePhase2 limit candidates selected seenKeys

/-- Model of `rerank_query_chunks` (retriever.py): classify the question,
score every candidate, sort descending (stable), prefer the non-low-value
pool when it can fill `top_k`, diversify, and for broad questions partition
into manual/high-level/code tiers first. -/
def rerankQueryChunks (ownershipBonus : String → ℚ) (question : String)
    (chunks : List SearchHit) (topK : ℕ) : List SearchHit :=
  let broad := isBroadQuery question
  let fileHints := extractFileHints question
  let questionTokens := tokenizeQuestion question
  let scored := chunks.map (fun chunk =>
    let source := chunk.sourceFile
    let bonus := sourceBonus ownershipBonus (!questionTokens.isEmpty) source broad +
      (if !fileHints.isEmpty &&
          fileHints.any (fun h => strContains (pyLower source) (String.mk h)) then
        (0.25 : ℚ)
      else 0)
    ((⟨chunk.similarity, bonus⟩ : Score), chunk))
  let sortedScored := List.insertionSort scoredDesc scored
  let preferred := sortedScored.filter (fun sc => !isLowValueSource sc.2.sourceFile)
  let rankedPool := if topK ≤ preferred.length then preferred else sortedScored
  let rankedChunks := rankedPool.map (·.2)
  if !broad then selectDiverse rankedChunks topK
  else
    let manualLevel := rankedChunks.filter (fun c => isManualSource c.sourceFile)
    let highLevel := rankedChunks.filter (fun c =>
      !isManualSource c.sourceFile && isHighLevelSource c.sourceFile)
    let codeLevel := rankedChunks.filter (fun c =>
      !isManualSource c.sourceFile && !isHighLevelSource c.sourceFile)
    if !manualLevel.isEmpty then selectDiverse (manualLevel ++ highLevel ++ codeLevel) topK
    else selectDiverse (highLevel ++ codeLevel) topK

/-- Model of `retrieve` (retriever.py): validate the dimension, embed the
question, over-fetch `max(top_k * 6, top_k)` raw hits, rerank.  The
embedding provider and the ownership collaborator are parameters (spec §6);
`embed([question])[0]` raising on an empty provider reply is an error. -/
def retrieve (provider : Pipeline.EmbeddingProvider) (ownershipBonus : String → ℚ)
    (st : Store) (question collection : String) (topK : ℕ) :
    Except String (Store × List SearchHit) := do
  let st1 ← Storage.validateEmbeddingDimension st provider.dimension
  match provider.embed [question.data] with
  | [] => .error "IndexError: provider returned no embedding"
  | queryEmbedding :: _ =>
    let rawResults := Storage.searchVectors st1 queryEmbedding collection (max (topK * 6) topK)
    .ok (st1, rerankQueryChunks ownershipBonus question rawResults topK)

/-- Python `path.rsplit("/", 1)[-1]`. -/
def rsplitLast (p : String) : String :=
  String.mk ((p.data.reverse.takeWhile (fun c => !(c == '/'))).reverse)

/-- State accumulated by the content loop of `embed_files_on_demand`. -/
structure EmbedLoopState where
  store : Store
  embeddedCount : ℕ
  embeddedPaths : List String

/-- Body of the per-file loop of `embed_files_on_demand`: normalize, skip
empty text, chunk, skip empty chunk lists, embed, upsert document (metadata
`filename`/`lazy_embedded`) and chunks, count the file and record its
path. -/
def embedOneFile (provider : Pipeline.EmbeddingProvider) (collection : String)
    (chunkSize chunkOverlap : ℕ) (acc : EmbedLoopState) (filePath : String)
    (rawContent : String) : EmbedLoopState :=
  let text := Chunker.normalizeText rawContent.data
  if text = [] then acc
  else
    let sha := computeSha256 (String.mk text)
    let chunks := Chunker.chunkText text chunkSize chunkOverlap filePath
    if chunks = [] then acc
    else
      let embeddings := provider.embed (chunks.map (·.content))
      let up := Storage.upsertDocument acc.store filePath sha collection
        [("filename", rsplitLast filePath), ("lazy_embedded", "True")]
      let records := (chunks.zip embeddings).map (fun ce =>
        (⟨ce.1.chunkIndex, ce.1.content, ce.2, ce.1.tokenCount, ce.1.sourceFile,
          ce.1.lineStart, ce.1.lineEnd⟩ : Storage.ChunkRecord))
      let ins := Storage.upsertChunks up.1 up.2 records
      ⟨ins.1, acc.embeddedCount + 1, acc.embeddedPaths ++ [filePath]⟩

/-- Model of `embed_files_on_demand` (retriever.py).  `fetch` is the GitHub
content collaborator: `fetch_files_content` returns content for the paths
it could fetch, failures being skipped silently, modelled as a partial
function applied to the unembedded paths in order.  Returns the new store
and the number of newly embedded files. -/
def embedFilesOnDemand (fetch : String → Option String)
    (provider : Pipeline.EmbeddingProvider) (chunkSize chunkOverlap : ℕ)
    (st : Store) (collection : String) (paths : List String) :
    Except String (Store × ℕ) :=
  match Storage.getRepoMeta st collection with
  | none => .ok (st, 0)
  | some _ =>
    let unembedded := Storage.getUnembeddedFiles st collection paths
    if unembedded = [] then .ok (st, 0)
    else
      let contents := unembedded.filterMap (fun p => (fetch p).map (fun c => (p, c)))
      if contents = [] then .ok (st, 0)
      else do
        let st1 ← Storage.validateEmbeddingDimension st provider.dimension
        let folded := contents.foldl
          (fun acc pc => embedOneFile provider collection chunkSize chunkOverlap acc pc.1 pc.2)
          ⟨st1, 0, []⟩
        let stFinal :=
          if folded.embeddedPaths.isEmpty then folded.store
          else (Storage.markFilesEmbedded folded.store collection folded.embeddedPaths).1
        .ok (stFinal, folded.embeddedCount)

/-- Order-preserving deduplication `list(dict.fromkeys(...))`. -/
def pyDedupAux (seen : List String) : List String → List String
  | [] => []
  | x :: xs => if seen.contains x then pyDedupAux seen xs else x :: pyDedupAux (x :: seen) xs

/-- Order-preserving deduplication of the tree-search paths. -/
def pyDedup (l : List String) : List String :=
  pyDedupAux [] l

/-- Model of `retrieve_lazy` (retriever.py): search the `{collection}_tree`
path index (falling back to plain retrieval when it is empty), embed the
surfaced files on demand, search the content collection, and rerank —
degrading to the tree hits when the content search is still empty.  The
returned number is `embed_files_on_demand`'s count of newly embedded files
(0 on the fallback path). -/
def retrieveLazy (fetch : String → Option String)
    (provider : Pipeline.EmbeddingProvider) (ownershipBonus : String → ℚ)
    (chunkSize chunkOverlap : ℕ) (st : Store) (question collection : String)
    (topK : ℕ) : Except String (Store × List SearchHit × ℕ) := do
  let st1 ← Storage.validateEmbeddingDimension st provider.dimension
  match provider.embed [question.data] with
  | [] => .error "IndexError: provider returned no embedding"
  | queryEmbedding :: _ =>
    let treeResults :=
      Storage.searchVectors st1 queryEmbedding (collection ++ "_tree") (max (topK * 3) 15)
    if treeResults = [] then do
      let r ← retrieve provider ownershipBonus st1 question collection topK
      .ok (r.1, r.2, 0)
    else
      let relevantPaths :=
        pyDedup ((treeResults.map (·.sourceFile)).filter (fun s => !(s == "")))
      let res ← embedFilesOnDemand fetch provider chunkSize chunkOverlap st1
        collection relevantPaths
      let rawResults :=
        Storage.searchVectors res.1 queryEmbedding collection (max (topK * 6) topK)
      if rawResults = [] then
        .ok (res.1, rerankQueryChunks ownershipBonus question treeResults topK, res.2)
      else
        .ok (res.1, rerankQueryChunks ownershipBonus question rawResults topK, res.2)

end Retriever

/-! ## General lemmas -/

theorem Sim.leB_iff (x y : Sim) : Sim.leB x y = true ↔ x.toReal ≤ y.toReal := by
  obtain ⟨a, u, hu⟩ := x
  obtain ⟨b, v, hv⟩ := y
  have hu' : (0:ℝ) < (u:ℝ) := by exact_mod_cast hu
  have hv' : (0:ℝ) < (v:ℝ) := by exact_mod_cast hv
  have hsu : (0:ℝ) < Real.sqrt u := Real.sqrt_pos.mpr hu'
  have hsv : (0:ℝ) < Real.sqrt v := Real.sqrt_pos.mpr hv'
  have key : (Sim.toReal ⟨a, u, hu⟩ ≤ Sim.toReal ⟨b, v, hv⟩) ↔
      (a:ℝ) * Real.sqrt v ≤ (b:ℝ) * Real.sqrt u := by
    unfold Sim.toReal
    exact div_le_div_iff₀ hsu hsv
  rw [key]
  unfold Sim.leB
  by_cases ha : (0:ℚ) ≤ a <;> by_cases hb : (0:ℚ) ≤ b <;> simp [ha, hb]
  · have ha' : (0:ℝ) ≤ (a:ℝ) := by exact_mod_cast ha
    have hb' : (0:ℝ) ≤ (b:ℝ) := by exact_mod_cast hb
    rw [← pow_le_pow_iff_left₀ (mul_nonneg ha' hsv.le) (mul_nonneg hb' hsu.le) two_ne_zero,
        mul_pow, mul_pow, Real.sq_sqrt hv'.le, Real.sq_sqrt hu'.le]
    constructor
    · intro h; exact_mod_cast h
    · intro h; exact_mod_cast h
  · push_neg at hb
    have ha' : (0:ℝ) ≤ (a:ℝ) := by exact_mod_cast ha
    have hb' : (b:ℝ) < 0 := by exact_mod_cast hb
    nlinarith [mul_nonneg ha' hsv.le, mul_neg_of_neg_of_pos hb' hsu]
  · push_neg at ha
    have ha' : (a:ℝ) < 0 := by exact_mod_cast ha
    have hb' : (0:ℝ) ≤ (b:ℝ) := by exact_mod_cast hb
    have h1 : (a:ℝ) * Real.sqrt v ≤ 0 := (mul_neg_of_neg_of_pos ha' hsv).le
    have h2 : (0:ℝ) ≤ (b:ℝ) * Real.sqrt u := mul_nonneg hb' hsu.le
    linarith
  · push_neg at ha hb
    have ha' : (a:ℝ) < 0 := by exact_mod_cast ha
    have hb' : (b:ℝ) < 0 := by exact_mod_cast hb
    have h1 : (0:ℝ) ≤ -((b:ℝ) * Real.sqrt u) := by nlinarith
    have h2 : (0:ℝ) ≤ -((a:ℝ) * Real.sqrt v) := by nlinarith
    rw [show ((a:ℝ) * Real.sqrt v ≤ (b:ℝ) * Real.sqrt u) ↔
        (-((b:ℝ) * Real.sqrt u) ≤ -((a:ℝ) * Real.sqrt v)) from
        ⟨fun h => by linarith, fun h => by linarith⟩,
      ← pow_le_pow_iff_left₀ h1 h2 two_ne_zero, neg_sq, neg_sq,
      mul_pow, mul_pow, Real.sq_sqrt hv'.le, Real.sq_sqrt hu'.le]
    constructor
    · intro h; exact_mod_cast h
    · intro h; exact_mod_cast h

theorem Sim.leB_total (x y : Sim) : Sim.leB x y = true ∨ Sim.leB y x = true := by
  rw [Sim.leB_iff, Sim.leB_iff]; exact le_total _ _

theorem Sim.leB_trans {x y z : Sim} (h1 : Sim.leB x y = true) (h2 : Sim.leB y z = true) :
    Sim.leB x z = true := by
  rw [Sim.leB_iff] at *; exact le_trans h1 h2

theorem sumSq_cons (x : ℚ) (l : List ℚ) : sumSq (x :: l) = x * x + sumSq l := by
  simp [sumSq]

theorem cs_step (x y A B D : ℚ) (hA : 0 ≤ A) (hB : 0 ≤ B) (hD : D ^ 2 ≤ A * B) :
    (x * y + D) ^ 2 ≤ (x * x + A) * (y * y + B) := by
  rcases eq_or_lt_of_le hB with hB0 | hB0
  · have hD0 : D = 0 := by nlinarith [sq_nonneg D]
    subst hD0
    nlinarith [mul_nonneg hA (sq_nonneg y)]
  · nlinarith [sq_nonneg (x * B - y * D), hB0,
      mul_nonneg (by positivity : (0:ℚ) ≤ y ^ 2 + B) (sub_nonneg.mpr hD)]

/-- The Cauchy–Schwarz inequality for the list dot product. -/
theorem dot_sq_le_sumSq_mul (a b : List ℚ) : (dot a b) ^ 2 ≤ sumSq a * sumSq b := by
  induction a generalizing b with
  | nil =>
    simp only [dot, sumSq, List.map_nil, List.sum_nil]
    have := sumSq_nonneg b
    simp only [sumSq] at this
    nlinarith
  | cons x xs ih =>
    cases b with
    | nil =>
      simp only [dot]
      have h1 := sumSq_nonneg (x :: xs)
      have h2 := sumSq_nonneg ([] : List ℚ)
      positivity
    | cons y ys =>
      rw [sumSq_cons, sumSq_cons]
      simp only [dot]
      exact cs_step x y (sumSq xs) (sumSq ys) (dot xs ys)
        (sumSq_nonneg xs) (sumSq_nonneg ys) (ih ys)

/-- Every value `_cosine_similarity` can produce lies in `[-1, 1]`. -/
theorem cosineSimilarity_toReal_abs_le (a b : List ℚ) :
    |((cosineSimilarity a b).toReal)| ≤ 1 := by
  unfold cosineSimilarity
  by_cases h1 : a = [] ∨ b = [] ∨ a.length ≠ b.length
  · rw [if_pos h1]
    simp [Sim.toReal]
  · rw [if_neg h1]
    by_cases h2 : sumSq a = 0 ∨ sumSq b = 0
    · rw [dif_pos h2]
      simp [Sim.toReal]
    · rw [dif_neg h2]
      set sa := sumSq a with hsa
      set sb := sumSq b with hsb
      have hs : (0:ℝ) < ((sa * sb : ℚ) : ℝ) := by
        have hsa0 : 0 < sa := lt_of_le_of_ne (sumSq_nonneg a) (fun hh => h2 (Or.inl hh.symm))
        have hsb0 : 0 < sb := lt_of_le_of_ne (sumSq_nonneg b) (fun hh => h2 (Or.inr hh.symm))
        have : (0:ℚ) < sa * sb := mul_pos hsa0 hsb0
        exact_mod_cast this
      have hsqrt : (0:ℝ) < Real.sqrt ((sa * sb : ℚ) : ℝ) := Real.sqrt_pos.mpr hs
      have hcs : ((dot a b : ℚ) : ℝ) ^ 2 ≤ ((sa * sb : ℚ) : ℝ) := by
        exact_mod_cast dot_sq_le_sumSq_mul a b
      have habs : |((dot a b : ℚ) : ℝ)| ≤ Real.sqrt ((sa * sb : ℚ) : ℝ) := by
        rw [← Real.sqrt_sq_eq_abs]
        exact Real.sqrt_le_sqrt hcs
      show |((dot a b : ℚ) : ℝ) / Real.sqrt ((sa * sb : ℚ) : ℝ)| ≤ 1
      rw [abs_div, abs_of_pos hsqrt, div_le_one hsqrt]
      exact habs

theorem hitDesc_total (a b : SearchHit) : Storage.hitDesc a b ∨ Storage.hitDesc b a := by
  unfold Storage.hitDesc
  exact Sim.leB_total b.similarity a.similarity

theorem hitDesc_trans (a b c : SearchHit) :
    Storage.hitDesc a b → Storage.hitDesc b c → Storage.hitDesc a c := by
  intro h1 h2
  unfold Storage.hitDesc at *
  exact Sim.leB_trans h2 h1

/-- The brute-force search output is sorted by descending real similarity. -/
theorem searchVectors_sorted (st : Store) (q : List ℚ) (coll : String) (k : ℕ) :
    (Storage.searchVectors st q coll k).Pairwise
      (fun a b => b.similarity.toReal ≤ a.similarity.toReal) := by
  unfold Storage.searchVectors
  apply List.Pairwise.sublist (List.take_sublist _ _)
  haveI : IsTotal SearchHit Storage.hitDesc := ⟨hitDesc_total⟩
  haveI : IsTrans SearchHit Storage.hitDesc := ⟨hitDesc_trans⟩
  exact (List.sorted_insertionSort Storage.hitDesc (Storage.scoredHits st q coll)).imp
    (fun hab => (Sim.leB_iff _ _).mp hab)

/-- The ANN-backend search output is sorted by descending real similarity. -/
theorem pgSearchVectors_sorted (st : Database.PgStore) (q : List ℚ) (coll : String) (k : ℕ) :
    (Database.searchVectors st q coll k).Pairwise
      (fun a b => b.similarity.toReal ≤ a.similarity.toReal) := by
  unfold Database.searchVectors
  apply List.Pairwise.sublist (List.take_sublist _ _)
  haveI : IsTotal SearchHit Storage.hitDesc := ⟨hitDesc_total⟩
  haveI : IsTrans SearchHit Storage.hitDesc := ⟨hitDesc_trans⟩
  exact (List.sorted_insertionSort Storage.hitDesc (Database.scoredHits st q coll)).imp
    (fun hab => (Sim.leB_iff _ _).mp hab)

/-- Every brute-force search hit scores the query against some decoded
stored vector. -/
theorem searchVectors_sim_shape (st : Store) (q : List ℚ) (coll : String) (k : ℕ) :
    ∀ h ∈ Storage.searchVectors st q coll k, ∃ v, h.similarity = cosineSimilarity q v := by
  intro h hmem
  unfold Storage.searchVectors at hmem
  have hmem2 := (List.take_sublist _ _).subset hmem
  rw [(List.perm_insertionSort Storage.hitDesc _).mem_iff] at hmem2
  unfold Storage.scoredHits at hmem2
  rw [List.mem_filterMap] at hmem2
  obtain ⟨cd, _, hcd⟩ := hmem2
  rcases hdec : decodeEmbedding cd.1.embedding with _ | v
  · rw [hdec] at hcd; cases hcd
  · rw [hdec] at hcd
    refine ⟨v, ?_⟩
    cases hcd
    rfl

/-- Every ANN-backend search hit scores the query against some stored
vector. -/
theorem pgSearchVectors_sim_shape (st : Database.PgStore) (q : List ℚ) (coll : String)
    (k : ℕ) :
    ∀ h ∈ Database.searchVectors st q coll k, ∃ v, h.similarity = cosineSimilarity q v := by
  intro h hmem
  unfold Database.searchVectors at hmem
  have hmem2 := (List.take_sublist _ _).subset hmem
  rw [(List.perm_insertionSort Storage.hitDesc _).mem_iff] at hmem2
  unfold Database.scoredHits at hmem2
  rw [List.mem_map] at hmem2
  obtain ⟨cd, _, hcd⟩ := hmem2
  refine ⟨cd.1.embedding, ?_⟩
  cases hcd
  rfl

/-! ## Claims C2 and C3: search contract and similarity range -/

/-- A one-document, one-chunk SQLite store (stored vector `[1]`). -/
def exStoreC2 : Store :=
  ⟨2, [⟨1, "repo/a.py", "sha-a", "docs", [("index_version", "v1")]⟩],
    [⟨1, 0, ['h', 'i'], .list [.num 1], 1, "repo/a.py", 1, 1⟩], some 1, []⟩

/-- A one-document, one-chunk Postgres store (stored vector `[1]`). -/
def exPgStoreC2 : Database.PgStore :=
  ⟨some 1, 2, [⟨1, "repo/a.py", "sha-a", "docs", [("index_version", "v1")]⟩],
    [⟨1, 0, ['h', 'i'], [1], 1, "repo/a.py", 1, 1⟩]⟩

/-- C2, counterexample to the claim as stated: quantified over every
requested `top_k`, the brute-force backend violates "at most `top_k`
results" — with `top_k = 0` it still returns one chunk, because
`search_vectors` truncates with `scored[: max(1, top_k)]` (the ANN backend's
`LIMIT 0` returns none, so the backends also disagree there). -/
theorem claim_C2_counterexample :
    ¬ ((Storage.searchVectors exStoreC2 [1] "docs" 0).length ≤ 0 ∧
      (Storage.searchVectors exStoreC2 [1] "docs" 0).length =
        (Database.searchVectors exPgStoreC2 [1] "docs" 0).length) := by
  decide

/-- C2 (amended): for every requested `top_k ≥ 1`, both backends return at
most `top_k` chunks, ordered by descending (real) similarity. -/
theorem claim_C2 (st : Store) (pgst : Database.PgStore) (q : List ℚ)
    (coll : String) (k : ℕ) (hk : 1 ≤ k) :
    ((Storage.searchVectors st q coll k).length ≤ k ∧
      (Storage.searchVectors st q coll k).Pairwise
        (fun a b => b.similarity.toReal ≤ a.similarity.toReal)) ∧
    ((Database.searchVectors pgst q coll k).length ≤ k ∧
      (Database.searchVectors pgst q coll k).Pairwise
        (fun a b => b.similarity.toReal ≤ a.similarity.toReal)) := by
  refine ⟨⟨?_, searchVectors_sorted st q coll k⟩, ?_, pgSearchVectors_sorted pgst q coll k⟩
  · unfold Storage.searchVectors
    rw [List.length_take]
    omega
  · unfold Database.searchVectors
    rw [List.length_take]
    omega

theorem claim_C2_witness :
    1 ≤ 1 ∧
    (((Storage.searchVectors exStoreC2 [1] "docs" 1).length ≤ 1 ∧
      (Storage.searchVectors exStoreC2 [1] "docs" 1).Pairwise
        (fun a b => b.similarity.toReal ≤ a.similarity.toReal)) ∧
    ((Database.searchVectors exPgStoreC2 [1] "docs" 1).length ≤ 1 ∧
      (Database.searchVectors exPgStoreC2 [1] "docs" 1).Pairwise
        (fun a b => b.similarity.toReal ≤ a.similarity.toReal))) :=
  ⟨by decide, claim_C2 exStoreC2 exPgStoreC2 [1] "docs" 1 (by decide)⟩

/-- A one-document, one-chunk store whose stored vector `[-1]` points away
from the query `[1]`. -/
def exStoreC3 : Store :=
  ⟨2, [⟨1, "repo/a.py", "sha-a", "docs", [("index_version", "v1")]⟩],
    [⟨1, 0, ['h', 'i'], .list [.num (-1)], 1, "repo/a.py", 1, 1⟩], some 1, []⟩

/-- C3, counterexample to the claim as stated: a reported similarity can be
negative.  `1 − cosine_distance` is plain cosine similarity, which lives in
`[-1, 1]`, not `[0, 1]`: for query `[1]` against the stored vector `[-1]`
the brute-force backend reports exactly `-1`. -/
theorem claim_C3_counterexample :
    ∃ h ∈ Storage.searchVectors exStoreC3 [1] "docs" 5,
      h.similarity.toReal < 0 := by
  refine ⟨⟨['h', 'i'], "repo/a.py", 1, 1, 0, "repo/a.py", ⟨-1, 1, one_pos⟩⟩, by decide, ?_⟩
  show ((-1 : ℚ) : ℝ) / Real.sqrt ((1 : ℚ) : ℝ) < 0
  push_cast
  rw [Real.sqrt_one]
  norm_num

/-- C3 (amended): on either backend, every reported similarity equals the
cosine similarity of the query with some stored vector and lies in
`[-1, 1]` (zero on degenerate inputs). -/
theorem claim_C3 (st : Store) (pgst : Database.PgStore) (q : List ℚ)
    (coll : String) (k : ℕ) :
    (∀ h ∈ Storage.searchVectors st q coll k,
      -1 ≤ h.similarity.toReal ∧ h.similarity.toReal ≤ 1) ∧
    (∀ h ∈ Database.searchVectors pgst q coll k,
      -1 ≤ h.similarity.toReal ∧ h.similarity.toReal ≤ 1) := by
  constructor
  · intro h hmem
    obtain ⟨v, hv⟩ := searchVectors_sim_shape st q coll k h hmem
    rw [hv]
    exact abs_le.mp (cosineSimilarity_toReal_abs_le q v)
  · intro h hmem
    obtain ⟨v, hv⟩ := pgSearchVectors_sim_shape pgst q coll k h hmem
    rw [hv]
    exact abs_le.mp (cosineSimilarity_toReal_abs_le q v)

theorem claim_C3_witness :
    (⟨['h', 'i'], "repo/a.py", 1, 1, 0, "repo/a.py", ⟨-1, 1, one_pos⟩⟩ : SearchHit) ∈
        Storage.searchVectors exStoreC3 [1] "docs" 5 ∧
      (-1 ≤ (Sim.toReal ⟨-1, 1, one_pos⟩) ∧ (Sim.toReal ⟨-1, 1, one_pos⟩) ≤ 1) :=
  ⟨by decide,
    (claim_C3 exStoreC3 exPgStoreC2 [1] "docs" 5).1
      ⟨['h', 'i'], "repo/a.py", 1, 1, 0, "repo/a.py", ⟨-1, 1, one_pos⟩⟩ (by decide)⟩

/-! ## Chunker lemmas and claim C9 -/

namespace Chunker

theorem chunkLoop_length_le (text : List Char) (cs co : ℕ) (src : String) :
    ∀ fuel pos idx, (chunkLoop text cs co src fuel pos idx).length ≤ text.length - pos := by
  intro fuel
  induction fuel with
  | zero => intro pos idx; simp [chunkLoop]
  | succ f ih =>
    intro pos idx
    rw [chunkLoop]
    by_cases hp : pos < text.length
    · rw [if_pos hp]
      by_cases hc : pyStrip ((text.drop pos).take (chunkEndPos text pos cs - pos)) = []
      · simp only [hc, if_pos]
        simp
      · rw [if_neg hc]
        by_cases he : text.length ≤ chunkEndPos text pos cs
        · rw [if_pos he]
          simp only [List.length_cons, List.length_nil]
          omega
        · rw [if_neg he]
          simp only [List.length_cons]
          have := ih (pos + max (chunkEndPos text pos cs - pos - co) 1) (idx + 1)
          have hadv : 1 ≤ max (chunkEndPos text pos cs - pos - co) 1 := le_max_right _ _
          omega
    · rw [if_neg hp]
      simp

theorem chunkLoop_fuel_irrelevant (text : List Char) (cs co : ℕ) (src : String) :
    ∀ fuel1 fuel2 pos idx, text.length - pos ≤ fuel1 → text.length - pos ≤ fuel2 →
      chunkLoop text cs co src fuel1 pos idx = chunkLoop text cs co src fuel2 pos idx := by
  intro fuel1
  induction fuel1 with
  | zero =>
    intro fuel2 pos idx h1 h2
    have hp : ¬ pos < text.length := by omega
    cases fuel2 with
    | zero => rfl
    | succ f2 =>
      rw [chunkLoop, chunkLoop, if_neg hp]
  | succ f1 ih =>
    intro fuel2 pos idx h1 h2
    by_cases hp : pos < text.length
    · have hf2 : ∃ g2, fuel2 = g2 + 1 := by
        cases fuel2 with
        | zero => omega
        | succ g => exact ⟨g, rfl⟩
      obtain ⟨g2, rfl⟩ := hf2
      rw [chunkLoop, chunkLoop, if_pos hp, if_pos hp]
      by_cases hc : pyStrip ((text.drop pos).take (chunkEndPos text pos cs - pos)) = []
      · rw [if_pos hc, if_pos hc]
      · rw [if_neg hc, if_neg hc]
        by_cases he : text.length ≤ chunkEndPos text pos cs
        · rw [if_pos he, if_pos he]
        · rw [if_neg he, if_neg he]
          have hadv : 1 ≤ max (chunkEndPos text pos cs - pos - co) 1 := le_max_right _ _
          congr 1
          exact ih g2 (pos + max (chunkEndPos text pos cs - pos - co) 1) (idx + 1)
            (by omega) (by omega)
    · cases fuel2 with
      | zero => rw [chunkLoop, chunkLoop, if_neg hp]
      | succ g2 => rw [chunkLoop, chunkLoop, if_neg hp, if_neg hp]

end Chunker

theorem dropWhile_head_not {p : Char → Bool} {l : List Char} {x : Char} {xs : List Char}
    (h : l.dropWhile p = x :: xs) : p x = false := by
  induction l with
  | nil => cases h
  | cons c rest ih =>
    rw [List.dropWhile_cons] at h
    by_cases hc : p c
    · rw [if_pos hc] at h; exact ih h
    · rw [if_neg hc] at h
      cases h
      exact Bool.not_eq_true _ ▸ (by simpa using hc)

theorem mem_dropWhile_of_neg {p : Char → Bool} {l : List Char} {c : Char}
    (hc : c ∈ l) (hp : p c = false) : c ∈ l.dropWhile p := by
  induction l with
  | nil => cases hc
  | cons x rest ih =>
    rw [List.dropWhile_cons]
    by_cases hx : p x
    · rw [if_pos hx]
      rcases List.mem_cons.mp hc with rfl | hmem
      · rw [hp] at hx; cases hx
      · exact ih hmem
    · rw [if_neg hx]
      exact hc

theorem pyStrip_ne_nil_of_mem {l : List Char} {c : Char} (hc : c ∈ l)
    (hp : isPySpace c = false) : pyStrip l ≠ [] := by
  intro hnil
  unfold pyStrip at hnil
  have h1 : c ∈ l.dropWhile isPySpace := mem_dropWhile_of_neg hc hp
  have h2 : c ∈ (l.dropWhile isPySpace).reverse := List.mem_reverse.mpr h1
  have h3 : c ∈ (l.dropWhile isPySpace).reverse.dropWhile isPySpace :=
    mem_dropWhile_of_neg h2 hp
  have h4 : c ∈ ((l.dropWhile isPySpace).reverse.dropWhile isPySpace).reverse :=
    List.mem_reverse.mpr h3
  rw [hnil] at h4
  cases h4

theorem dropWhile_eq_self_of_head {p : Char → Bool} {x : Char} {xs : List Char}
    (h : p x = false) : (x :: xs).dropWhile p = x :: xs := by
  rw [List.dropWhile_cons, if_neg (by simp [h])]

theorem pyStrip_head_not {l : List Char} {x : Char} {xs : List Char}
    (h : pyStrip l = x :: xs) : isPySpace x = false := by
  unfold pyStrip at h
  have hsuf : (l.dropWhile isPySpace).reverse.dropWhile isPySpace <:+
      (l.dropWhile isPySpace).reverse := List.dropWhile_suffix _
  have hpre : ((l.dropWhile isPySpace).reverse.dropWhile isPySpace).reverse <+:
      l.dropWhile isPySpace := by
    have h2 := List.reverse_prefix.mpr hsuf
    simpa using h2
  obtain ⟨rest, hrest⟩ := hpre
  rw [h] at hrest
  exact dropWhile_head_not hrest.symm

theorem pyStrip_nil : pyStrip [] = [] := rfl

theorem pyStrip_idem (l : List Char) : pyStrip (pyStrip l) = pyStrip l := by
  rcases hl : pyStrip l with _ | ⟨x, xs⟩
  · exact pyStrip_nil
  · have hx : isPySpace x = false := pyStrip_head_not hl
    have hrev : ∃ y ys, (x :: xs).reverse = y :: ys := by
      rcases hr : (x :: xs).reverse with _ | ⟨y, ys⟩
      · exfalso
        have := congrArg List.length hr
        simp at this
      · exact ⟨y, ys, rfl⟩
    obtain ⟨y, ys, hyys⟩ := hrev
    have hy : isPySpace y = false := by
      have h1 : ((l.dropWhile isPySpace).reverse.dropWhile isPySpace).reverse = x :: xs := hl
      have h2 : (l.dropWhile isPySpace).reverse.dropWhile isPySpace = (x :: xs).reverse := by
        rw [← h1, List.reverse_reverse]
      rw [hyys] at h2
      exact dropWhile_head_not h2
    unfold pyStrip
    rw [dropWhile_eq_self_of_head hx, hyys, dropWhile_eq_self_of_head hy, ← hyys,
      List.reverse_reverse]

theorem chunkEndPos_pos (text : List Char) (charSize : ℕ) (hcs : 1 ≤ charSize)
    (hlen : 1 ≤ text.length) : 1 ≤ Chunker.chunkEndPos text 0 charSize := by
  unfold Chunker.chunkEndPos
  simp only [Nat.zero_add]
  by_cases h : min charSize text.length < text.length
  · rw [if_pos h]
    rcases h1 : Chunker.pyRfind ['\n', '\n'] text (charSize / 2) (min charSize text.length) with _ | j
    · dsimp only
      rcases h2 : Chunker.pyRfind ['.', ' '] text (charSize / 2) (min charSize text.length) with _ | j
      · dsimp only
        rcases h3 : Chunker.pyRfind ['\n'] text (charSize / 2) (min charSize text.length) with _ | j
        · dsimp only
          omega
        · dsimp only
          omega
      · dsimp only
        omega
    · dsimp only
      omega
  · rw [if_neg h]
    omega

theorem chunkText_ne_nil (text : List Char) (cs co : ℕ) (src : String)
    (hstrip : pyStrip text = text) (hne : text ≠ []) (hcs : 1 ≤ cs) :
    Chunker.chunkText text cs co src ≠ [] := by
  unfold Chunker.chunkText
  rw [hstrip, if_neg hne]
  obtain ⟨x, xs, rfl⟩ : ∃ x xs, text = x :: xs := by
    rcases text with _ | ⟨x, xs⟩
    · exact absurd rfl hne
    · exact ⟨x, xs, rfl⟩
  have hx : isPySpace x = false := pyStrip_head_not hstrip
  have hlen : 1 ≤ (x :: xs).length := by simp
  rw [show (x :: xs).length = xs.length + 1 from by simp, Chunker.chunkLoop]
  rw [if_pos (by simp)]
  have hend : 1 ≤ Chunker.chunkEndPos (x :: xs) 0 (cs * 4) :=
    chunkEndPos_pos (x :: xs) (cs * 4) (by omega) hlen
  have hcontent : pyStrip (((x :: xs).drop 0).take (Chunker.chunkEndPos (x :: xs) 0 (cs * 4) - 0)) ≠ [] := by
    apply pyStrip_ne_nil_of_mem (c := x) _ hx
    simp only [List.drop_zero]
    rcases hE : Chunker.chunkEndPos (x :: xs) 0 (cs * 4) with _ | n
    · omega
    · simp
  rw [if_neg hcontent]
  by_cases hfin : (x :: xs).length ≤ Chunker.chunkEndPos (x :: xs) 0 (cs * 4)
  · rw [if_pos hfin]; simp
  · rw [if_neg hfin]; simp

/-- C9: `chunk_text` terminates and is bounded.  The cursor walk is the
loop `chunkLoop`, structurally recursive on a fuel; because every
continuing iteration advances the cursor by at least one character, the
loop is finished after at most `len(text)` iterations: any fuel of at least
`len(text)` computes the same result (termination of the Python `while`
loop after at most `len(text)` iterations), and the number of produced
chunks is at most the length of the text. -/
theorem claim_C9 (text : List Char) (chunkSize chunkOverlap : ℕ) (src : String) :
    (Chunker.chunkText text chunkSize chunkOverlap src).length ≤ text.length ∧
    ∀ fuel, text.length ≤ fuel →
      Chunker.chunkLoop text (chunkSize * 4) (chunkOverlap * 4) src fuel 0 0 =
        Chunker.chunkLoop text (chunkSize * 4) (chunkOverlap * 4) src text.length 0 0 := by
  constructor
  · unfold Chunker.chunkText
    by_cases h : pyStrip text = []
    · rw [if_pos h]
      simp
    · rw [if_neg h]
      have := Chunker.chunkLoop_length_le text (chunkSize * 4) (chunkOverlap * 4) src
        text.length 0 0
      omega
  · intro fuel hf
    exact Chunker.chunkLoop_fuel_irrelevant text (chunkSize * 4) (chunkOverlap * 4) src
      fuel text.length 0 0 (by omega) (by omega)

theorem claim_C9_witness :
    ("ab\ncd".data.length ≤ 20 ∧
      Chunker.chunkLoop "ab\ncd".data (1 * 4) (0 * 4) "f" 20 0 0 =
        Chunker.chunkLoop "ab\ncd".data (1 * 4) (0 * 4) "f" "ab\ncd".data.length 0 0) :=
  ⟨by decide, (claim_C9 "ab\ncd".data 1 0 "f").2 20 (by decide)⟩

/-! ## Claim C8: index-version determinism -/

theorem wordNibbles_length (w : ℕ) : (wordNibbles w).length = 8 := rfl

theorem hashNibbles_length (st : Hash8) : (hashNibbles st).length = 64 := rfl

theorem sha256Nibbles_length (msg : List ℕ) : (sha256Nibbles msg).length = 64 :=
  hashNibbles_length _

theorem sha256Nibbles_lt_16 (msg : List ℕ) : ∀ x ∈ sha256Nibbles msg, x < 16 := by
  intro x hx
  unfold sha256Nibbles hashNibbles at hx
  rw [List.mem_flatten] at hx
  obtain ⟨l, hl, hxl⟩ := hx
  rw [List.mem_map] at hl
  obtain ⟨w, _, rfl⟩ := hl
  unfold wordNibbles at hxl
  simp only [List.mem_cons, List.not_mem_nil, or_false] at hxl
  rcases hxl with rfl | rfl | rfl | rfl | rfl | rfl | rfl | rfl <;>
    exact Nat.mod_lt _ (by norm_num)

/-- Metadata with all five version fields fixed except a variable chunk
size. -/
def baseMetaC8 (n : ℤ) : List (String × JVal) :=
  [("repo_commit", .str "c0ffee"), ("embedding_provider", .str "openai"),
   ("embedding_model", .str "text-embedding-3-small"), ("chunk_size", .int n),
   ("chunk_overlap", .int 64)]

/-- First 16 digest nibbles of the version computed at chunk size `n`,
packed as a function into a finite type. -/
def versionNibbles16 (n : ℤ) : Fin 16 → Fin 16 := fun i =>
  ⟨(sha256Nibbles (utf8Bytes (serializeIndexVersionPayload (baseMetaC8 n)))).getD i 0 % 16,
    Nat.mod_lt _ (by norm_num)⟩

theorem buildIndexVersion_eq_of_nibbles16_eq {a b : ℤ}
    (h : versionNibbles16 a = versionNibbles16 b) :
    buildIndexVersion (baseMetaC8 a) = buildIndexVersion (baseMetaC8 b) := by
  have htake : (sha256Nibbles (utf8Bytes (serializeIndexVersionPayload (baseMetaC8 a)))).take 16 =
      (sha256Nibbles (utf8Bytes (serializeIndexVersionPayload (baseMetaC8 b)))).take 16 := by
    apply List.ext_getElem
    · rw [List.length_take, List.length_take, sha256Nibbles_length, sha256Nibbles_length]
    · intro i h1 h2
      have hi : i < 16 := by
        rw [List.length_take, sha256Nibbles_length] at h1; omega
      have hia : i < (sha256Nibbles (utf8Bytes (serializeIndexVersionPayload (baseMetaC8 a)))).length := by
        rw [sha256Nibbles_length]; omega
      have hib : i < (sha256Nibbles (utf8Bytes (serializeIndexVersionPayload (baseMetaC8 b)))).length := by
        rw [sha256Nibbles_length]; omega
      have hfi := congrArg Fin.val (congrFun h ⟨i, hi⟩)
      simp only [versionNibbles16] at hfi
      rw [List.getD_eq_getElem _ 0 hia, List.getD_eq_getElem _ 0 hib,
        Nat.mod_eq_of_lt (sha256Nibbles_lt_16 _ _ (List.getElem_mem hia)),
        Nat.mod_eq_of_lt (sha256Nibbles_lt_16 _ _ (List.getElem_mem hib))] at hfi
      rw [List.getElem_take, List.getElem_take]
      exact hfi
  unfold buildIndexVersion computeSha256 pySlice16
  dsimp only
  rw [← List.map_take, ← List.map_take, htake]

/-- C8, counterexample to the claim as stated: the "result changes whenever
one of the five inputs changes" direction cannot hold.  The version string
is the 16-hex-character truncation of a SHA-256 digest, a finite set of
values, while `chunk_size` alone ranges over infinitely many values — by
the pigeonhole principle two different chunk sizes (all other fields held
fixed) share the same version string. -/
theorem claim_C8_counterexample :
    ¬ (∀ n m : ℤ, n ≠ m →
      buildIndexVersion (baseMetaC8 n) ≠ buildIndexVersion (baseMetaC8 m)) := by
  intro hinj
  obtain ⟨x, y, hxy, hf⟩ := Finite.exists_ne_map_eq_of_infinite versionNibbles16
  exact hinj x y hxy (buildIndexVersion_eq_of_nibbles16_eq hf)

/-- C8 (amended): `build_index_version` is deterministic and depends on
nothing but the five fields `INDEX_VERSION_KEYS` — two metadata dicts that
agree on those five keys (whatever else they contain, in whatever order)
produce the identical version string.  Distinct five-field values change
the serialized hash input, so the version changes except for SHA-256
truncation collisions, which exist by `claim_C8_counterexample`. -/
theorem claim_C8 (m1 m2 : List (String × JVal))
    (h : ∀ k ∈ indexVersionKeys, jGet m1 k = jGet m2 k) :
    buildIndexVersion m1 = buildIndexVersion m2 := by
  unfold buildIndexVersion serializeIndexVersionPayload
  rw [h "chunk_overlap" (by simp [indexVersionKeys]),
    h "chunk_size" (by simp [indexVersionKeys]),
    h "embedding_model" (by simp [indexVersionKeys]),
    h "embedding_provider" (by simp [indexVersionKeys]),
    h "repo_commit" (by simp [indexVersionKeys])]

theorem claim_C8_witness :
    (∀ k ∈ indexVersionKeys,
      jGet [("repo_commit", .str "c0ffee"), ("embedding_provider", .str "openai"),
        ("embedding_model", .str "m"), ("chunk_size", .int 512),
        ("chunk_overlap", .int 64), ("collection", .str "docs")] k =
      jGet [("chunk_overlap", .int 64), ("chunk_size", .int 512),
        ("embedding_model", .str "m"), ("embedding_provider", .str "openai"),
        ("repo_commit", .str "c0ffee"), ("created_at", .str "2026-01-01")] k) ∧
    buildIndexVersion
        [("repo_commit", .str "c0ffee"), ("embedding_provider", .str "openai"),
          ("embedding_model", .str "m"), ("chunk_size", .int 512),
          ("chunk_overlap", .int 64), ("collection", .str "docs")] =
      buildIndexVersion
        [("chunk_overlap", .int 64), ("chunk_size", .int 512),
          ("embedding_model", .str "m"), ("embedding_provider", .str "openai"),
          ("repo_commit", .str "c0ffee"), ("created_at", .str "2026-01-01")] :=
  ⟨by decide, claim_C8 _ _ (by decide)⟩

/-! ## Claim C1: dedup and reindex decision of the ingestion pipeline -/

theorem upsertDocument_docs_find (st : Store) (key sha coll : String)
    (md : List (String × String)) :
    ∃ row : DocRow,
      ((Storage.upsertDocument st key sha coll md).1.docs.find?
        (fun d => d.sha256 == sha && d.collection == coll)) = some row ∧
      row.metadata = md := by
  unfold Storage.upsertDocument
  rcases hf : st.docs.find? (fun d => d.sha256 == sha && d.collection == coll) with _ | row0
  · rw [hf]
    dsimp only
    refine ⟨⟨st.nextDocId, key, sha, coll, md⟩, ?_, rfl⟩
    rw [List.find?_append, hf]
    simp
  · rw [hf]
    dsimp only
    rw [List.find?_map]
    have hpf : ((fun d : DocRow => d.sha256 == sha && d.collection == coll) ∘
        (fun d : DocRow =>
          if d.sha256 == sha && d.collection == coll then
            { d with s3Key := key, metadata := md }
          else d)) = (fun d : DocRow => d.sha256 == sha && d.collection == coll) := by
      funext d
      by_cases hd : (d.sha256 == sha && d.collection == coll) = true
      · simp only [Function.comp_apply, if_pos hd]
      · simp only [Function.comp_apply, if_neg hd]
    rw [hpf, hf]
    have hmatch : (row0.sha256 == sha && row0.collection == coll) = true :=
      @List.find?_some _ (fun d : DocRow => d.sha256 == sha && d.collection == coll)
        row0 st.docs hf
    refine ⟨{ row0 with s3Key := key, metadata := md }, ?_, rfl⟩
    dsimp only [Option.map]
    rw [if_pos hmatch]

theorem upsertChunks_docs (st : Store) (docId : ℕ) (recs : List Storage.ChunkRecord) :
    (Storage.upsertChunks st docId recs).1.docs = st.docs := rfl

theorem metaGet_pipeline_indexVersion (fp v : String) :
    (metaGet [("filename", Pipeline.pyBasename fp), ("index_version", v)]
      "index_version").getD "" = v := by
  have h1 : ("filename" == "index_version") = false := by decide
  simp [metaGet, List.find?, h1]

theorem isPySpace_hexChar {n : ℕ} (hn : n < 16) : isPySpace (hexChar n) = false := by
  interval_cases n <;> decide

theorem pyStrip_eq_self (l : List Char) (h : ∀ c ∈ l, isPySpace c = false) :
    pyStrip l = l := by
  rcases l with _ | ⟨x, xs⟩
  · rfl
  · unfold pyStrip
    rw [dropWhile_eq_self_of_head (h x (by simp))]
    obtain ⟨y, ys, hyys⟩ : ∃ y ys, (x :: xs).reverse = y :: ys := by
      rcases hr : (x :: xs).reverse with _ | ⟨y, ys⟩
      · exfalso
        have := congrArg List.length hr
        simp at this
      · exact ⟨y, ys, rfl⟩
    have hy : y ∈ x :: xs := by
      rw [← List.mem_reverse, hyys]
      simp
    rw [hyys, dropWhile_eq_self_of_head (h y hy), ← hyys, List.reverse_reverse]

theorem pyStripStr_eq_self (s : String) (h : ∀ c ∈ s.data, isPySpace c = false) :
    pyStripStr s = s := by
  unfold pyStripStr
  rw [pyStrip_eq_self _ h]

theorem buildIndexVersion_data (m : List (String × JVal)) :
    (buildIndexVersion m).data =
      ((sha256Nibbles (utf8Bytes (serializeIndexVersionPayload m))).take 16).map hexChar := by
  unfold buildIndexVersion computeSha256 pySlice16
  dsimp only
  rw [← List.map_take]

theorem buildIndexVersion_ne_empty (m : List (String × JVal)) :
    buildIndexVersion m ≠ "" := by
  intro h
  have hd := congrArg String.data h
  rw [buildIndexVersion_data] at hd
  have := congrArg List.length hd
  simp only [List.length_map, List.length_take, sha256Nibbles_length] at this
  simp at this

theorem pyStripStr_buildIndexVersion (m : List (String × JVal)) :
    pyStripStr (buildIndexVersion m) = buildIndexVersion m := by
  apply pyStripStr_eq_self
  intro c hc
  rw [buildIndexVersion_data] at hc
  rw [List.mem_map] at hc
  obtain ⟨n, hn, rfl⟩ := hc
  exact isPySpace_hexChar
    (sha256Nibbles_lt_16 _ _ (List.mem_of_mem_take hn))

theorem pyStrip_normalizeText (raw : List Char) :
    pyStrip (Chunker.normalizeText raw) = Chunker.normalizeText raw := by
  unfold Chunker.normalizeText
  exact pyStrip_idem _

theorem ingestFile_doc_version (provider : Pipeline.EmbeddingProvider) (st : Store)
    (coll v fp : String) (raw : List Char) (cs co : ℕ)
    (hraw : Chunker.normalizeText raw ≠ []) (hcs : 1 ≤ cs)
    (hv : pyStripStr v = v) (hvne : v ≠ "") :
    ∃ row : DocRow,
      ((Pipeline.ingestFile provider st coll v cs co fp raw).1.docs.find?
        (fun d => d.sha256 == computeSha256 (String.mk (Chunker.normalizeText raw)) &&
          d.collection == coll)) = some row ∧
      (metaGet row.metadata "index_version").getD "" = v := by
  unfold Pipeline.ingestFile
  dsimp only
  rw [if_neg hraw, hv]
  by_cases hex : (v ≠ "" ∧ (Storage.documentExistsForIndex st
      (computeSha256 (String.mk (Chunker.normalizeText raw))) coll v).isSome)
  · rw [if_pos hex]
    obtain ⟨-, hsome⟩ := hex
    unfold Storage.documentExistsForIndex at hsome
    rcases hfind : st.docs.find? (fun d =>
        d.sha256 == computeSha256 (String.mk (Chunker.normalizeText raw)) &&
          d.collection == coll) with _ | row
    · rw [hfind] at hsome
      simp at hsome
    · rw [hfind] at hsome
      dsimp only at hsome
      by_cases hver : (metaGet row.metadata "index_version").getD "" = v
      · exact ⟨row, hfind, hver⟩
      · rw [if_neg hver] at hsome
        simp at hsome
  · rw [if_neg hex]
    rw [if_neg (by
      intro hcon
      exact hvne hcon.1)]
    have hchunks : Chunker.chunkText (Chunker.normalizeText raw) cs co fp ≠ [] :=
      chunkText_ne_nil _ cs co fp (pyStrip_normalizeText raw) hraw hcs
    rw [if_neg hchunks]
    dsimp only
    rw [upsertChunks_docs]
    obtain ⟨row, hfind, hmd⟩ := upsertDocument_docs_find st fp
      (computeSha256 (String.mk (Chunker.normalizeText raw))) coll
      [("filename", Pipeline.pyBasename fp), ("index_version", if v = "" then "unknown" else v)]
    refine ⟨row, hfind, ?_⟩
    rw [hmd, if_neg hvne]
    exact metaGet_pipeline_indexVersion fp v

/-- C1 (amended): for every file whose normalized content is nonempty,
ingested with a positive chunk size: ingesting it twice under the same
configuration (hence the same index version) makes the second run count it
as skipped (`indexed=0, skipped=1`); if the configuration change alters the
index version (as a `chunk_size` change is meant to), the next run
reindexes the file (`indexed=1`, not skipped) even though its content hash
is unchanged.  The counterexample forces the nonemptiness/positive-size
hypotheses: an empty file is never counted at all. -/
theorem claim_C1 (provider1 provider2 : Pipeline.EmbeddingProvider) (st : Store)
    (meta1 meta2 : List (String × JVal)) (coll fp : String) (raw : List Char)
    (cs1 co1 cs2 co2 : ℕ)
    (hraw : Chunker.normalizeText raw ≠ []) (hcs1 : 1 ≤ cs1) (hcs2 : 1 ≤ cs2) :
    ((Pipeline.ingestFile provider1
        (Pipeline.ingestFile provider1 st coll (buildIndexVersion meta1) cs1 co1 fp raw).1
        coll (buildIndexVersion meta1) cs1 co1 fp raw).2.indexedDelta = 0 ∧
     (Pipeline.ingestFile provider1
        (Pipeline.ingestFile provider1 st coll (buildIndexVersion meta1) cs1 co1 fp raw).1
        coll (buildIndexVersion meta1) cs1 co1 fp raw).2.skippedDelta = 1) ∧
    (buildIndexVersion meta2 ≠ buildIndexVersion meta1 →
      (Pipeline.ingestFile provider2
        (Pipeline.ingestFile provider1 st coll (buildIndexVersion meta1) cs1 co1 fp raw).1
        coll (buildIndexVersion meta2) cs2 co2 fp raw).2.indexedDelta = 1 ∧
      (Pipeline.ingestFile provider2
        (Pipeline.ingestFile provider1 st coll (buildIndexVersion meta1) cs1 co1 fp raw).1
        coll (buildIndexVersion meta2) cs2 co2 fp raw).2.skippedDelta = 0) := by
  obtain ⟨row, hfind, hver⟩ := ingestFile_doc_version provider1 st coll
    (buildIndexVersion meta1) fp raw cs1 co1 hraw hcs1
    (pyStripStr_buildIndexVersion meta1) (buildIndexVersion_ne_empty meta1)
  set st1 := (Pipeline.ingestFile provider1 st coll (buildIndexVersion meta1) cs1 co1 fp raw).1
    with hst1
  have hsome1 : (Storage.documentExistsForIndex st1
      (computeSha256 (String.mk (Chunker.normalizeText raw))) coll
      (buildIndexVersion meta1)).isSome = true := by
    unfold Storage.documentExistsForIndex
    rw [hfind]
    dsimp only
    rw [if_pos hver]
    rfl
  constructor
  · have houtcome : (Pipeline.ingestFile provider1 st1
        coll (buildIndexVersion meta1) cs1 co1 fp raw).2 = .skipped := by
      unfold Pipeline.ingestFile
      dsimp only
      rw [if_neg hraw, pyStripStr_buildIndexVersion]
      rw [if_pos ⟨buildIndexVersion_ne_empty meta1, hsome1⟩]
    rw [houtcome]
    exact ⟨rfl, rfl⟩
  · intro hne12
    have hnone2 : (Storage.documentExistsForIndex st1
        (computeSha256 (String.mk (Chunker.normalizeText raw))) coll
        (buildIndexVersion meta2)) = none := by
      unfold Storage.documentExistsForIndex
      rw [hfind]
      dsimp only
      rw [if_neg (by rw [hver]; exact fun hh => hne12 hh.symm)]
    have houtcome : ∃ n, (Pipeline.ingestFile provider2 st1
        coll (buildIndexVersion meta2) cs2 co2 fp raw).2 = .indexed n := by
      unfold Pipeline.ingestFile
      dsimp only
      rw [if_neg hraw, pyStripStr_buildIndexVersion]
      rw [if_neg (by
        intro hcon
        rw [hnone2] at hcon
        simp at hcon)]
      rw [if_neg (fun hcon => buildIndexVersion_ne_empty meta2 hcon.1)]
      rw [if_neg (chunkText_ne_nil _ cs2 co2 fp (pyStrip_normalizeText raw) hraw hcs2)]
      exact ⟨_, rfl⟩
    obtain ⟨n, hn⟩ := houtcome
    rw [hn]
    exact ⟨rfl, rfl⟩

/-- C1, counterexample to the claim as stated: a file whose normalized
content is empty (for example a whitespace-only file) is silently passed
over by `_ingest_file` on every run — the second run reports
`skipped_docs = 0` for it, not the claimed `skipped=1`. -/
theorem claim_C1_counterexample :
    ¬ ((Pipeline.ingestFile ⟨1, fun l => l.map (fun _ => [1])⟩
        (Pipeline.ingestFile ⟨1, fun l => l.map (fun _ => [1])⟩ ⟨1, [], [], none, []⟩
          "docs" "v1" 512 64 "notes/empty.md" " ".data).1
        "docs" "v1" 512 64 "notes/empty.md" " ".data).2.skippedDelta = 1) := by
  decide

theorem claim_C1_witness :
    (Chunker.normalizeText "hello world".data ≠ [] ∧ (1:ℕ) ≤ 2 ∧ (1:ℕ) ≤ 3) ∧
    (((Pipeline.ingestFile ⟨1, fun l => l.map (fun _ => [1])⟩
        (Pipeline.ingestFile ⟨1, fun l => l.map (fun _ => [1])⟩ ⟨1, [], [], none, []⟩
          "docs" (buildIndexVersion (baseMetaC8 512)) 2 0 "notes/a.md" "hello world".data).1
        "docs" (buildIndexVersion (baseMetaC8 512)) 2 0 "notes/a.md"
        "hello world".data).2.indexedDelta = 0 ∧
      (Pipeline.ingestFile ⟨1, fun l => l.map (fun _ => [1])⟩
        (Pipeline.ingestFile ⟨1, fun l => l.map (fun _ => [1])⟩ ⟨1, [], [], none, []⟩
          "docs" (buildIndexVersion (baseMetaC8 512)) 2 0 "notes/a.md" "hello world".data).1
        "docs" (buildIndexVersion (baseMetaC8 512)) 2 0 "notes/a.md"
        "hello world".data).2.skippedDelta = 1) ∧
    (buildIndexVersion (baseMetaC8 256) ≠ buildIndexVersion (baseMetaC8 512) →
      (Pipeline.ingestFile ⟨1, fun l => l.map (fun _ => [1])⟩
        (Pipeline.ingestFile ⟨1, fun l => l.map (fun _ => [1])⟩ ⟨1, [], [], none, []⟩
          "docs" (buildIndexVersion (baseMetaC8 512)) 2 0 "notes/a.md" "hello world".data).1
        "docs" (buildIndexVersion (baseMetaC8 256)) 3 0 "notes/a.md"
        "hello world".data).2.indexedDelta = 1 ∧
      (Pipeline.ingestFile ⟨1, fun l => l.map (fun _ => [1])⟩
        (Pipeline.ingestFile ⟨1, fun l => l.map (fun _ => [1])⟩ ⟨1, [], [], none, []⟩
          "docs" (buildIndexVersion (baseMetaC8 512)) 2 0 "notes/a.md" "hello world".data).1
        "docs" (buildIndexVersion (baseMetaC8 256)) 3 0 "notes/a.md"
        "hello world".data).2.skippedDelta = 0)) :=
  ⟨⟨by decide, by decide, by decide⟩,
    claim_C1 ⟨1, fun l => l.map (fun _ => [1])⟩ ⟨1, fun l => l.map (fun _ => [1])⟩
      ⟨1, [], [], none, []⟩ (baseMetaC8 512) (baseMetaC8 256) "docs" "notes/a.md"
      "hello world".data 2 0 3 0 (by decide) (by decide) (by decide)⟩

/-! ## Claims C6, C7: dimension validation and migration -/

/-- C6, counterexample to the claim as stated: on a virgin Postgres store
(no fixed `vector` dimension in the schema) `validate_embedding_dimension`
only returns — it records nothing, so the claimed "records the provider's
first-seen dimension" does not hold on both backends: after validating
against provider dimension 3 the stored dimension is still absent. -/
theorem claim_C6_counterexample :
    Database.validateEmbeddingDimension ⟨none, 1, [], []⟩ 3 =
        .ok (⟨none, 1, [], []⟩ : Database.PgStore) ∧
      (⟨none, 1, [], []⟩ : Database.PgStore).schemaDim ≠ some 3 := by
  decide

/-- C6 (amended): both backends fail exactly when a stored dimension exists
and disagrees with the provider's; on a virgin store the SQLite backend
records the provider's first-seen dimension, while the Postgres backend
performs no write at all (it skips validation when the schema fixes no
dimension). -/
theorem claim_C6 (st : Store) (pgst : Database.PgStore) (d : ℕ) :
    (st.embeddingDim = none →
      Storage.validateEmbeddingDimension st d = .ok { st with embeddingDim := some d }) ∧
    (∀ e, st.embeddingDim = some e →
      (e = d → Storage.validateEmbeddingDimension st d = .ok st) ∧
      (e ≠ d → Storage.validateEmbeddingDimension st d =
        .error "Embedding dimension mismatch")) ∧
    (pgst.schemaDim = none → Database.validateEmbeddingDimension pgst d = .ok pgst) ∧
    (∀ e, pgst.schemaDim = some e →
      (e = d → Database.validateEmbeddingDimension pgst d = .ok pgst) ∧
      (e ≠ d → Database.validateEmbeddingDimension pgst d =
        .error "Embedding dimension mismatch")) := by
  refine ⟨?_, ?_, ?_, ?_⟩
  · intro h
    unfold Storage.validateEmbeddingDimension Storage.getChunksEmbeddingDimension
    rw [h]
  · intro e he
    unfold Storage.validateEmbeddingDimension Storage.getChunksEmbeddingDimension
    rw [he]
    constructor
    · intro hed
      dsimp only
      rw [if_neg (by simp [hed])]
    · intro hed
      dsimp only
      rw [if_pos hed]
  · intro h
    unfold Database.validateEmbeddingDimension
    rw [h]
  · intro e he
    unfold Database.validateEmbeddingDimension
    rw [he]
    constructor
    · intro hed
      dsimp only
      rw [if_neg (by simp [hed])]
    · intro hed
      dsimp only
      rw [if_pos hed]

theorem claim_C6_witness :
    ((⟨1, [], [], none, []⟩ : Store).embeddingDim = none ∧
      Storage.validateEmbeddingDimension ⟨1, [], [], none, []⟩ 3 =
        .ok (⟨1, [], [], some 3, []⟩ : Store)) ∧
    ((⟨some 4, 1, [], []⟩ : Database.PgStore).schemaDim = some 4 ∧ (4 : ℕ) ≠ 3 ∧
      Database.validateEmbeddingDimension ⟨some 4, 1, [], []⟩ 3 =
        .error "Embedding dimension mismatch") :=
  ⟨⟨rfl, (claim_C6 ⟨1, [], [], none, []⟩ ⟨some 4, 1, [], []⟩ 3).1 rfl⟩,
    ⟨rfl, by decide,
      ((claim_C6 ⟨1, [], [], none, []⟩ ⟨some 4, 1, [], []⟩ 3).2.2.2 4 rfl).2 (by decide)⟩⟩

/-- C7, counterexample to the claim as stated: `migrate_embedding_dimension`
takes no collection argument and clears every collection.  Migrating a
store holding one document in collection "a" and one in collection "b"
deletes both (and reports `documents_deleted = 2`), so it does not "clear
the existing documents for the collection and touch nothing else". -/
theorem claim_C7_counterexample :
    Storage.migrateEmbeddingDimension
        ⟨3, [⟨1, "ka", "sha-a", "a", []⟩, ⟨2, "kb", "sha-b", "b", []⟩], [], some 128, []⟩ 64 =
      .ok (⟨3, [], [], some 64, []⟩, ⟨some 128, 64, 2, 0, true⟩) := by
  decide

/-- C7 (amended): on both backends, migrating to the currently stored
dimension is a no-op (`changed=false`, zero deletions, state unmodified);
migrating to a different dimension clears all documents and (through the
foreign-key cascade) all chunks of the whole store — every collection, not
just one — reports their prior total counts as deleted, updates the stored
dimension, and touches nothing else (`repo_files` rows and the id counter
are preserved). -/
theorem claim_C7 (st : Store) (pgst : Database.PgStore) (n : ℕ) (hn : 1 ≤ n)
    (hfk : ∀ c ∈ st.chunks, ∃ d ∈ st.docs, d.id = c.documentId)
    (hfkpg : ∀ c ∈ pgst.chunks, ∃ d ∈ pgst.docs, d.id = c.documentId) :
    ((st.embeddingDim = some n →
      Storage.migrateEmbeddingDimension st n = .ok (st, ⟨some n, n, 0, 0, false⟩)) ∧
     (st.embeddingDim ≠ some n →
      Storage.migrateEmbeddingDimension st n =
        .ok ({ st with docs := [], chunks := [], embeddingDim := some n },
          ⟨st.embeddingDim, n, st.docs.length, st.chunks.length, true⟩))) ∧
    ((pgst.schemaDim = some n →
      Database.migrateEmbeddingDimension pgst n = .ok (pgst, ⟨some n, n, 0, 0, false⟩)) ∧
     (pgst.schemaDim ≠ some n →
      Database.migrateEmbeddingDimension pgst n =
        .ok ({ pgst with docs := [], chunks := [], schemaDim := some n },
          ⟨pgst.schemaDim, n, pgst.docs.length, pgst.chunks.length, true⟩))) := by
  have hz : st.chunks.filter (fun c => !(st.docs.any (fun d => d.id == c.documentId))) = [] := by
    rw [List.filter_eq_nil_iff]
    intro c hc
    obtain ⟨d, hd, hid⟩ := hfk c hc
    have hany : st.docs.any (fun d => d.id == c.documentId) = true :=
      List.any_eq_true.mpr ⟨d, hd, by simp [hid]⟩
    simp [hany]
  have hzpg : pgst.chunks.filter (fun c => !(pgst.docs.any (fun d => d.id == c.documentId))) = [] := by
    rw [List.filter_eq_nil_iff]
    intro c hc
    obtain ⟨d, hd, hid⟩ := hfkpg c hc
    have hany : pgst.docs.any (fun d => d.id == c.documentId) = true :=
      List.any_eq_true.mpr ⟨d, hd, by simp [hid]⟩
    simp [hany]
  constructor
  · constructor
    · intro h
      unfold Storage.migrateEmbeddingDimension
      rw [if_neg (by omega), if_pos h, h]
    · intro h
      unfold Storage.migrateEmbeddingDimension
      rw [if_neg (by omega), if_neg h, hz]
  · constructor
    · intro h
      unfold Database.migrateEmbeddingDimension
      rw [if_neg (by omega), if_pos h, h]
    · intro h
      unfold Database.migrateEmbeddingDimension
      rw [if_neg (by omega), if_neg h, hzpg]

theorem claim_C7_witness :
    ((1:ℕ) ≤ 64 ∧
      (∀ c ∈ ([⟨1, 0, ['x'], .list [.num 1], 1, "a.py", 1, 1⟩] : List ChunkRow),
        ∃ d ∈ ([⟨1, "ka", "sha-a", "a", []⟩] : List DocRow), d.id = c.documentId)) ∧
    (Storage.migrateEmbeddingDimension
        ⟨2, [⟨1, "ka", "sha-a", "a", []⟩], [⟨1, 0, ['x'], .list [.num 1], 1, "a.py", 1, 1⟩],
          some 64, []⟩ 64 =
      .ok (⟨2, [⟨1, "ka", "sha-a", "a", []⟩], [⟨1, 0, ['x'], .list [.num 1], 1, "a.py", 1, 1⟩],
          some 64, []⟩, ⟨some 64, 64, 0, 0, false⟩)) :=
  ⟨⟨by decide, by decide⟩,
    ((claim_C7
      ⟨2, [⟨1, "ka", "sha-a", "a", []⟩], [⟨1, 0, ['x'], .list [.num 1], 1, "a.py", 1, 1⟩],
        some 64, []⟩
      ⟨none, 1, [], []⟩ 64 (by decide) (by decide) (by decide)).1.1 rfl)⟩

/-! ## Claim C10: totality of the brute-force search over arbitrary rows -/

theorem jsonElem_mapM_other : ∀ es : List JsonElem, JsonElem.other ∈ es →
    es.mapM (fun e => match e with | .num q => some q | .other => none) = none := by
  intro es h
  induction es with
  | nil => cases h
  | cons e rest ih =>
    rcases List.mem_cons.mp h with rfl | hmem
    · rw [List.mapM_cons]
      rfl
    · cases e with
      | other =>
        rw [List.mapM_cons]
        rfl
      | num q =>
        rw [List.mapM_cons, ih hmem]
        rfl

theorem jsonElem_mapM_num : ∀ w : List ℚ,
    (w.map JsonElem.num).mapM
      (fun e => match e with | .num q => some q | .other => none) = some w := by
  intro w
  induction w with
  | nil => rfl
  | cons a as ih =>
    rw [List.map_cons, List.mapM_cons, ih]
    rfl

theorem decodeEmbedding_other {es : List JsonElem} (h : JsonElem.other ∈ es) :
    decodeEmbedding (.list es) = none :=
  jsonElem_mapM_other es h

theorem cosineSimilarity_degenerate (q v : List ℚ)
    (h : v.length ≠ q.length ∨ sumSq v = 0) :
    cosineSimilarity q v = ⟨0, 1, one_pos⟩ := by
  unfold cosineSimilarity
  by_cases h1 : q = [] ∨ v = [] ∨ q.length ≠ v.length
  · rw [if_pos h1]
  · rw [if_neg h1]
    rcases h with hlen | hz
    · exact absurd (Or.inr (Or.inr (fun hh => hlen hh.symm))) h1
    · rw [dif_pos (Or.inr hz)]

/-- A store holding one chunk whose `embedding` column does not parse as
JSON at all. -/
def exStoreC10 : Store :=
  ⟨2, [⟨1, "repo/a.py", "sha-a", "docs", []⟩],
    [⟨1, 0, ['x'], .badJson, 1, "repo/a.py", 1, 1⟩], none, []⟩

/-- C10, counterexample to the claim as stated: a stored embedding that is
not valid JSON is NOT excluded — `_json_load(value, [])` falls back to the
empty list, which passes the `isinstance(..., list)` check, so the row is
scored (with similarity `0.0`, via the empty-vector branch of
`_cosine_similarity`) and returned. -/
theorem claim_C10_counterexample :
    ¬ (Storage.searchVectors exStoreC10 [1] "docs" 5 = []) ∧
    (Storage.searchVectors exStoreC10 [1] "docs" 5).map (·.similarity) =
      [⟨0, 1, one_pos⟩] := by
  constructor
  · decide
  · decide

/-- C10 (amended): the brute-force search is total over arbitrary stored
rows, with this shape: valid-JSON non-arrays and arrays containing a
non-floatable element are skipped; text that fails to decode as JSON falls
back to the empty list and is scored `0.0` rather than skipped; a stored
vector of the wrong length or with zero norm receives similarity `0.0`
(`Sim.toReal ⟨0,1⟩ = 0`); and every returned hit is the cosine score of
some decoded vector — no row ever raises. -/
theorem claim_C10 (st : Store) (q : List ℚ) (coll : String) (k : ℕ)
    (es : List JsonElem) (v : List ℚ)
    (hes : JsonElem.other ∈ es) (hv : v.length ≠ q.length ∨ sumSq v = 0) :
    (decodeEmbedding .badJson = some [] ∧
      decodeEmbedding .nonList = none ∧
      decodeEmbedding (.list es) = none) ∧
    (cosineSimilarity q [] = ⟨0, 1, one_pos⟩ ∧
      cosineSimilarity q v = ⟨0, 1, one_pos⟩ ∧
      Sim.toReal ⟨0, 1, one_pos⟩ = 0) ∧
    (∀ h ∈ Storage.searchVectors st q coll k,
      ∃ w, decodeEmbedding (.list (w.map .num)) = some w ∧
        h.similarity = cosineSimilarity q w) := by
  refine ⟨⟨rfl, rfl, decodeEmbedding_other hes⟩, ⟨?_, ?_, ?_⟩, ?_⟩
  · unfold cosineSimilarity
    rw [if_pos (Or.inr (Or.inl rfl))]
  · exact cosineSimilarity_degenerate q v hv
  · unfold Sim.toReal
    simp
  · intro h hmem
    obtain ⟨w, hw⟩ := searchVectors_sim_shape st q coll k h hmem
    exact ⟨w, jsonElem_mapM_num w, hw⟩

theorem claim_C10_witness :
    (JsonElem.other ∈ [JsonElem.other] ∧
      (([(2:ℚ), 3]).length ≠ ([(1:ℚ)]).length ∨ sumSq [(2:ℚ), 3] = 0)) ∧
    ((decodeEmbedding .badJson = some [] ∧
      decodeEmbedding .nonList = none ∧
      decodeEmbedding (.list [JsonElem.other]) = none) ∧
    (cosineSimilarity [(1:ℚ)] [] = ⟨0, 1, one_pos⟩ ∧
      cosineSimilarity [(1:ℚ)] [(2:ℚ), 3] = ⟨0, 1, one_pos⟩ ∧
      Sim.toReal ⟨0, 1, one_pos⟩ = 0) ∧
    (∀ h ∈ Storage.searchVectors exStoreC10 [(1:ℚ)] "docs" 5,
      ∃ w, decodeEmbedding (.list (w.map .num)) = some w ∧
        h.similarity = cosineSimilarity [(1:ℚ)] w)) :=
  ⟨⟨by decide, by decide⟩,
    claim_C10 exStoreC10 [(1:ℚ)] "docs" 5 [JsonElem.other] [(2:ℚ), 3]
      (by decide) (by decide)⟩

/-! ## Claim C5: key-distinctness of the reranker output -/

theorem selectDiversePhase1_inv (limit : ℕ) :
    ∀ (cands selected : List SearchHit) (seenSources : List String)
      (seenKeys : List (String × ℕ × ℕ × ℕ)),
      (selected.map Retriever.hitKey).Nodup →
      (∀ c ∈ selected, Retriever.hitKey c ∈ seenKeys) →
      ((Retriever.selectDiversePhase1 limit cands selected seenSources seenKeys).1.map
          Retriever.hitKey).Nodup ∧
        (∀ c ∈ (Retriever.selectDiversePhase1 limit cands selected seenSources seenKeys).1,
          Retriever.hitKey c ∈
            (Retriever.selectDiversePhase1 limit cands selected seenSources seenKeys).2.1) := by
  intro cands
  induction cands with
  | nil =>
    intro selected ss sk h1 h2
    exact ⟨h1, h2⟩
  | cons chunk rest ih =>
    intro selected ss sk h1 h2
    unfold Retriever.selectDiversePhase1
    dsimp only
    by_cases hseen : pyLower chunk.sourceFile ∈ ss ∨ Retriever.hitKey chunk ∈ sk
    · rw [if_pos hseen]
      exact ih selected ss sk h1 h2
    · rw [if_neg hseen]
      obtain ⟨hs, hk⟩ := not_or.mp hseen
      have h1' : ((selected ++ [chunk]).map Retriever.hitKey).Nodup := by
        rw [List.map_append]
        refine List.Nodup.append h1 (List.nodup_singleton _) ?_
        intro a ha hb
        simp only [List.map_singleton, List.mem_singleton] at hb
        subst hb
        obtain ⟨c, hc, hkey⟩ := List.mem_map.mp ha
        exact hk (hkey ▸ h2 c hc)
      have h2' : ∀ c ∈ selected ++ [chunk],
          Retriever.hitKey c ∈ Retriever.hitKey chunk :: sk := by
        intro c hc
        rcases List.mem_append.mp hc with hcl | hcr
        · exact List.mem_cons_of_mem _ (h2 c hcl)
        · rw [List.mem_singleton] at hcr
          subst hcr
          exact List.mem_cons_self _ _
      by_cases hlim : limit ≤ (selected ++ [chunk]).length
      · rw [if_pos hlim]
        exact ⟨h1', h2'⟩
      · rw [if_neg hlim]
        exact ih _ _ _ h1' h2'

theorem selectDiversePhase2_nodup (limit : ℕ) :
    ∀ (cands selected : List SearchHit) (seenKeys : List (String × ℕ × ℕ × ℕ)),
      (selected.map Retriever.hitKey).Nodup →
      (∀ c ∈ selected, Retriever.hitKey c ∈ seenKeys) →
      ((Retriever.selectDiversePhase2 limit cands selected seenKeys).map
        Retriever.hitKey).Nodup := by
  intro cands
  induction cands with
  | nil =>
    intro selected sk h1 h2
    exact h1
  | cons chunk rest ih =>
    intro selected sk h1 h2
    unfold Retriever.selectDiversePhase2
    dsimp only
    by_cases hseen : Retriever.hitKey chunk ∈ sk
    · rw [if_pos hseen]
      exact ih selected sk h1 h2
    · rw [if_neg hseen]
      have h1' : ((selected ++ [chunk]).map Retriever.hitKey).Nodup := by
        rw [List.map_append]
        refine List.Nodup.append h1 (List.nodup_singleton _) ?_
        intro a ha hb
        simp only [List.map_singleton, List.mem_singleton] at hb
        subst hb
        obtain ⟨c, hc, hkey⟩ := List.mem_map.mp ha
        exact hseen (hkey ▸ h2 c hc)
      have h2' : ∀ c ∈ selected ++ [chunk],
          Retriever.hitKey c ∈ Retriever.hitKey chunk :: sk := by
        intro c hc
        rcases List.mem_append.mp hc with hcl | hcr
        · exact List.mem_cons_of_mem _ (h2 c hcl)
        · rw [List.mem_singleton] at hcr
          subst hcr
          exact List.mem_cons_self _ _
      by_cases hlim : limit ≤ (selected ++ [chunk]).length
      · rw [if_pos hlim]
        exact h1'
      · rw [if_neg hlim]
        exact ih _ _ h1' h2'

theorem selectDiverse_nodup (cands : List SearchHit) (limit : ℕ) :
    ((Retriever.selectDiverse cands limit).map Retriever.hitKey).Nodup := by
  unfold Retriever.selectDiverse
  have h := selectDiversePhase1_inv limit cands [] [] [] (by simp) (by simp)
  rcases hr : Retriever.selectDiversePhase1 limit cands [] [] [] with ⟨sel, keys, flag⟩
  rw [hr] at h
  cases flag
  · dsimp only
    exact selectDiversePhase2_nodup limit cands sel keys h.1 h.2
  · dsimp only
    exact h.1

/-- C5: the reranker never returns two results with the same
`(source, line_start, line_end, chunk_index)` key — in fact for every
question, candidate list and `top_k` (even without the claim's proviso that
at least `top_k` distinct-key candidates exist), since both passes of
`_select_diverse` gate selection on the `seen_chunks` key set. -/
theorem claim_C5 (ownershipBonus : String → ℚ) (question : String)
    (chunks : List SearchHit) (topK : ℕ) :
    ((Retriever.rerankQueryChunks ownershipBonus question chunks topK).map
      Retriever.hitKey).Nodup := by
  unfold Retriever.rerankQueryChunks
  dsimp only
  repeat first
  | exact selectDiverse_nodup _ _
  | split

/-! ## Claim C4: helper lemmas -/

theorem find?_map_pres {α : Type} (f : α → α) (p : α → Bool)
    (h : ∀ a, (p a = true → f a = a) ∧ p (f a) = p a) :
    ∀ l : List α, (l.map f).find? p = l.find? p := by
  intro l
  induction l with
  | nil => rfl
  | cons a t ih =>
    rw [List.map_cons, List.find?_cons, List.find?_cons, (h a).2]
    cases hp : p a
    · dsimp only [cond]
      exact ih
    · dsimp only [cond]
      rw [(h a).1 hp]

theorem find?_append_single {α : Type} (p : α → Bool) (x : α) (hx : p x = false) :
    ∀ l : List α, (l ++ [x]).find? p = l.find? p := by
  intro l
  induction l with
  | nil =>
    rw [List.nil_append, List.find?_cons, hx]
  | cons a t ih =>
    rw [List.cons_append, List.find?_cons, List.find?_cons]
    cases hp : p a
    · dsimp only [cond]
      exact ih
    · rfl

theorem filterMap_filter_none {α β : Type} (q : α → Bool) (f : α → Option β)
    (h : ∀ a, q a = false → f a = none) :
    ∀ l : List α, (l.filter q).filterMap f = l.filterMap f := by
  intro l
  induction l with
  | nil => rfl
  | cons a t ih =>
    rw [List.filter_cons]
    cases hq : q a
    · rw [if_neg (by simp [hq])]
      rw [ih, List.filterMap_cons, h a hq]
    · rw [if_pos (by simp [hq])]
      rw [List.filterMap_cons, List.filterMap_cons, ih]

theorem filterMap_congr' {α β : Type} (f g : α → Option β)
    (l : List α) (h : ∀ a ∈ l, f a = g a) : l.filterMap f = l.filterMap g := by
  induction l with
  | nil => rfl
  | cons a t ih =>
    rw [List.filterMap_cons, List.filterMap_cons, h a (List.mem_cons_self a t),
      ih (fun x hx => h x (List.mem_cons_of_mem a hx))]

theorem upsertDocument_frame (st : Store) (key sha coll : String)
    (meta : List (String × String)) :
    (Storage.upsertDocument st key sha coll meta).1.repoFiles = st.repoFiles ∧
    (Storage.upsertDocument st key sha coll meta).1.embeddingDim = st.embeddingDim ∧
    (Storage.upsertDocument st key sha coll meta).1.chunks = st.chunks := by
  rcases hf : st.docs.find? (fun d => d.sha256 == sha && d.collection == coll) with _ | row
  · unfold Storage.upsertDocument
    rw [hf]
    exact ⟨rfl, rfl, rfl⟩
  · unfold Storage.upsertDocument
    rw [hf]
    exact ⟨rfl, rfl, rfl⟩

theorem upsertDocument_wf (st : Store) (key sha coll : String)
    (meta : List (String × String))
    (h1 : ∀ d ∈ st.docs, d.id < st.nextDocId)
    (h2 : (st.docs.map (·.id)).Nodup) :
    (∀ d ∈ (Storage.upsertDocument st key sha coll meta).1.docs,
      d.id < (Storage.upsertDocument st key sha coll meta).1.nextDocId) ∧
    ((Storage.upsertDocument st key sha coll meta).1.docs.map (·.id)).Nodup ∧
    (∀ d ∈ (Storage.upsertDocument st key sha coll meta).1.docs,
      d.id = (Storage.upsertDocument st key sha coll meta).2 →
        (d.collection == coll) = true) := by
  rcases hf : st.docs.find? (fun d => d.sha256 == sha && d.collection == coll) with _ | row
  · unfold Storage.upsertDocument
    rw [hf]
    dsimp only
    refine ⟨?_, ?_, ?_⟩
    · intro d hd
      rcases List.mem_append.mp hd with hdl | hdr
      · exact Nat.lt_succ_of_lt (h1 d hdl)
      · rw [List.mem_singleton] at hdr
        subst hdr
        exact Nat.lt_succ_self _
    · rw [List.map_append]
      refine List.Nodup.append h2 (List.nodup_singleton _) ?_
      intro a ha hb
      simp only [List.map_cons, List.map_nil, List.mem_singleton] at hb
      obtain ⟨d, hd, hid⟩ := List.mem_map.mp ha
      have := h1 d hd
      subst hb
      rw [hid] at this
      exact lt_irrefl _ this
    · intro d hd hid
      rcases List.mem_append.mp hd with hdl | hdr
      · have := h1 d hdl
        omega
      · rw [List.mem_singleton] at hdr
        subst hdr
        simp
  · have hrow := List.find?_some hf
    have hmem := List.mem_of_find?_eq_some hf
    have fid : ∀ d0 : DocRow,
        ((if d0.sha256 == sha && d0.collection == coll then
          { d0 with s3Key := key, metadata := meta } else d0) : DocRow).id = d0.id := by
      intro d0
      by_cases hc : (d0.sha256 == sha && d0.collection == coll) = true
      · rw [if_pos hc]
      · rw [if_neg hc]
    have hids : ((st.docs.map (fun d =>
        if d.sha256 == sha && d.collection == coll then
          { d with s3Key := key, metadata := meta } else d)).map (·.id)) =
        st.docs.map (·.id) := by
      rw [List.map_map]
      apply List.map_congr_left
      intro d hd
      exact fid d
    unfold Storage.upsertDocument
    rw [hf]
    dsimp only
    refine ⟨?_, ?_, ?_⟩
    · intro d hd
      obtain ⟨d0, hd0, hfd⟩ := List.mem_map.mp hd
      rw [← hfd, fid d0]
      exact h1 d0 hd0
    · rw [hids]
      exact h2
    · intro d hd hid
      obtain ⟨d0, hd0, hfd⟩ := List.mem_map.mp hd
      have hid0 : d0.id = row.id := by
        rw [← fid d0, hfd, hid]
      have hd0row : d0 = row :=
        List.inj_on_of_nodup_map h2 hd0 hmem hid0
      subst hd0row
      rw [← hfd, if_pos hrow]
      exact (Bool.and_eq_true _ _ ▸ hrow).2

theorem joinedRows_upsertDocument (st : Store) (key sha coll : String)
    (meta : List (String × String)) (coll' : String) (hne : coll' ≠ coll) :
    Storage.joinedRows (Storage.upsertDocument st key sha coll meta).1 coll' =
      Storage.joinedRows st coll' := by
  rcases hf : st.docs.find? (fun d => d.sha256 == sha && d.collection == coll) with _ | row
  · unfold Storage.upsertDocument
    rw [hf]
    unfold Storage.joinedRows
    dsimp only
    apply filterMap_congr'
    intro c hc
    rw [find?_append_single]
    dsimp only
    rw [show ((coll == coll') = false) from beq_eq_false_iff_ne.mpr (Ne.symm hne),
      Bool.and_false]
  · unfold Storage.upsertDocument
    rw [hf]
    unfold Storage.joinedRows
    dsimp only
    apply filterMap_congr'
    intro c hc
    rw [find?_map_pres]
    intro d
    constructor
    · intro hp
      have hcoll : d.collection = coll' := beq_iff_eq.mp (Bool.and_eq_true _ _ ▸ hp).2
      have hcond : ¬ (d.sha256 == sha && d.collection == coll) = true := by
        intro hcond
        apply hne
        rw [← hcoll]
        exact beq_iff_eq.mp (Bool.and_eq_true _ _ ▸ hcond).2
      rw [if_neg hcond]
    · by_cases hcond : (d.sha256 == sha && d.collection == coll) = true
      · rw [if_pos hcond]
      · rw [if_neg hcond]

theorem joinedRows_upsertChunks (st : Store) (docId : ℕ)
    (records : List Storage.ChunkRecord) (coll' : String)
    (hdoc : ∀ d ∈ st.docs, d.id = docId → (d.collection == coll') = false) :
    Storage.joinedRows (Storage.upsertChunks st docId records).1 coll' =
      Storage.joinedRows st coll' := by
  have hnone : ∀ cdi : ℕ, cdi = docId →
      st.docs.find? (fun d => d.id == cdi && d.collection == coll') = none := by
    intro cdi hcdi
    rw [List.find?_eq_none]
    intro d hd hp
    have hdid : d.id = cdi := beq_iff_eq.mp (Bool.and_eq_true _ _ ▸ hp).1
    have hfalse := hdoc d hd (hdid.trans hcdi)
    have htrue := (Bool.and_eq_true _ _ ▸ hp).2
    rw [hfalse] at htrue
    exact Bool.false_ne_true htrue
  unfold Storage.upsertChunks Storage.joinedRows
  dsimp only
  rw [List.filterMap_append]
  have happ : (records.map (fun r =>
      (⟨docId, r.chunkIndex, r.content, .list (r.embedding.map .num),
        r.tokenCount, r.sourceFile, r.lineStart, r.lineEnd⟩ : ChunkRow))).filterMap
      (fun c =>
        match st.docs.find? (fun d => d.id == c.documentId && d.collection == coll') with
        | some d => some (c, d)
        | none => none) = [] := by
    rw [List.filterMap_eq_nil_iff]
    intro c hc
    obtain ⟨r, hr, rfl⟩ := List.mem_map.mp hc
    rw [hnone _ rfl]
  rw [happ, List.append_nil]
  apply filterMap_filter_none
  intro c hq
  have hcd : c.documentId = docId := by
    have : (c.documentId == docId) = true := by
      cases hb : (c.documentId == docId)
      · rw [hb] at hq
        exact absurd hq (by decide)
      · rfl
    exact beq_iff_eq.mp this
  rw [hnone _ hcd]

theorem embedOneFile_spec (provider : Pipeline.EmbeddingProvider) (coll : String)
    (cs co : ℕ) (acc : Retriever.EmbedLoopState) (p c : String) (hcs : 1 ≤ cs)
    (hnz : Chunker.normalizeText c.data ≠ [])
    (h1 : ∀ d ∈ acc.store.docs, d.id < acc.store.nextDocId)
    (h2 : (acc.store.docs.map (·.id)).Nodup) :
    (Retriever.embedOneFile provider coll cs co acc p c).store.repoFiles =
      acc.store.repoFiles ∧
    (Retriever.embedOneFile provider coll cs co acc p c).store.embeddingDim =
      acc.store.embeddingDim ∧
    (∀ d ∈ (Retriever.embedOneFile provider coll cs co acc p c).store.docs,
      d.id < (Retriever.embedOneFile provider coll cs co acc p c).store.nextDocId) ∧
    ((Retriever.embedOneFile provider coll cs co acc p c).store.docs.map (·.id)).Nodup ∧
    (∀ coll', coll' ≠ coll →
      Storage.joinedRows (Retriever.embedOneFile provider coll cs co acc p c).store coll' =
        Storage.joinedRows acc.store coll') ∧
    (Retriever.embedOneFile provider coll cs co acc p c).embeddedCount =
      acc.embeddedCount + 1 ∧
    (Retriever.embedOneFile provider coll cs co acc p c).embeddedPaths =
      acc.embeddedPaths ++ [p] := by
  have hch : Chunker.chunkText (Chunker.normalizeText c.data) cs co p ≠ [] :=
    chunkText_ne_nil _ cs co p (pyStrip_normalizeText _) hnz hcs
  unfold Retriever.embedOneFile
  dsimp only
  rw [if_neg hnz, if_neg hch]
  dsimp only
  obtain ⟨hfr, hfe, hfc⟩ := upsertDocument_frame acc.store p
    (computeSha256 (String.mk (Chunker.normalizeText c.data))) coll
    [("filename", Retriever.rsplitLast p), ("lazy_embedded", "True")]
  obtain ⟨hw1, hw2, hw3⟩ := upsertDocument_wf acc.store p
    (computeSha256 (String.mk (Chunker.normalizeText c.data))) coll
    [("filename", Retriever.rsplitLast p), ("lazy_embedded", "True")] h1 h2
  refine ⟨hfr, hfe, hw1, hw2, ?_, rfl, rfl⟩
  intro coll' hne
  rw [joinedRows_upsertChunks _ _ _ _ ?hdoc]
  · exact joinedRows_upsertDocument acc.store _ _ _ _ _ hne
  case hdoc =>
    intro d hd hid
    have := hw3 d hd hid
    rw [beq_eq_false_iff_ne]
    intro hc
    apply hne
    rw [← hc]
    exact beq_iff_eq.mp this

theorem embedFold_spec (provider : Pipeline.EmbeddingProvider) (coll : String)
    (cs co : ℕ) (hcs : 1 ≤ cs) :
    ∀ (contents : List (String × String)) (acc : Retriever.EmbedLoopState),
      (∀ pc ∈ contents, Chunker.normalizeText pc.2.data ≠ []) →
      (∀ d ∈ acc.store.docs, d.id < acc.store.nextDocId) →
      (acc.store.docs.map (·.id)).Nodup →
      (contents.foldl (fun a pc =>
        Retriever.embedOneFile provider coll cs co a pc.1 pc.2) acc).store.repoFiles =
          acc.store.repoFiles ∧
      (contents.foldl (fun a pc =>
        Retriever.embedOneFile provider coll cs co a pc.1 pc.2) acc).store.embeddingDim =
          acc.store.embeddingDim ∧
      (∀ coll', coll' ≠ coll →
        Storage.joinedRows (contents.foldl (fun a pc =>
          Retriever.embedOneFile provider coll cs co a pc.1 pc.2) acc).store coll' =
            Storage.joinedRows acc.store coll') ∧
      (contents.foldl (fun a pc =>
        Retriever.embedOneFile provider coll cs co a pc.1 pc.2) acc).embeddedCount =
          acc.embeddedCount + contents.length ∧
      (contents.foldl (fun a pc =>
        Retriever.embedOneFile provider coll cs co a pc.1 pc.2) acc).embeddedPaths =
          acc.embeddedPaths ++ contents.map (·.1) := by
  intro contents
  induction contents with
  | nil =>
    intro acc hnz h1 h2
    exact ⟨rfl, rfl, fun coll' hne => rfl, rfl, (List.append_nil _).symm⟩
  | cons pc rest ih =>
    intro acc hnz h1 h2
    obtain ⟨s1, s2, s3, s4, s5, s6, s7⟩ :=
      embedOneFile_spec provider coll cs co acc pc.1 pc.2 hcs
        (hnz pc (List.mem_cons_self pc rest)) h1 h2
    obtain ⟨r1, r2, r3, r4, r5⟩ :=
      ih (Retriever.embedOneFile provider coll cs co acc pc.1 pc.2)
        (fun x hx => hnz x (List.mem_cons_of_mem pc hx)) s3 s4
    rw [List.foldl_cons]
    refine ⟨r1.trans s1, r2.trans s2, ?_, ?_, ?_⟩
    · intro coll' hne
      exact (r3 coll' hne).trans (s5 coll' hne)
    · rw [r4, s6, List.length_cons]
      omega
    · rw [r5, s7, List.map_cons, List.append_assoc]
      rfl

theorem filterMap_fetch_paths (fetch : String → Option String) :
    ∀ l : List String, (∀ p ∈ l, (fetch p).isSome = true) →
      ((l.filterMap (fun p => (fetch p).map (fun c => (p, c)))).map (·.1) = l ∧
        ∀ pc ∈ l.filterMap (fun p => (fetch p).map (fun c => (p, c))),
          fetch pc.1 = some pc.2 ∧ pc.1 ∈ l) := by
  intro l
  induction l with
  | nil => exact fun h => ⟨rfl, fun pc hpc => absurd hpc (List.not_mem_nil pc)⟩
  | cons p t ih =>
    intro h
    obtain ⟨c, hc⟩ := Option.isSome_iff_exists.mp (h p (List.mem_cons_self p t))
    obtain ⟨ih1, ih2⟩ := ih (fun x hx => h x (List.mem_cons_of_mem p hx))
    rw [List.filterMap_cons, hc, Option.map_some']
    dsimp only
    refine ⟨?_, ?_⟩
    · rw [List.map_cons, ih1]
    · intro pc hpc
      rcases List.mem_cons.mp hpc with rfl | hmem
      · exact ⟨hc, List.mem_cons_self _ _⟩
      · obtain ⟨hf, hm⟩ := ih2 pc hmem
        exact ⟨hf, List.mem_cons_of_mem p hm⟩

theorem markFilesEmbedded_getUnembedded (st : Store) (coll : String)
    (ps : List String) :
    Storage.getUnembeddedFiles (Storage.markFilesEmbedded st coll ps).1 coll ps = [] := by
  unfold Storage.markFilesEmbedded Storage.getUnembeddedFiles
  dsimp only
  rw [List.filter_map]
  rw [show (st.repoFiles.filter ((fun r =>
      r.collection == coll && ps.contains r.filePath && !r.embedded) ∘
      (fun r => if r.collection == coll && ps.contains r.filePath then
        { r with embedded := true } else r))) = [] from ?_]
  · rfl
  rw [List.filter_eq_nil_iff]
  intro r hr
  dsimp only [Function.comp]
  by_cases hc : (r.collection == coll && ps.contains r.filePath) = true
  · rw [if_pos hc]
    intro habs
    have h3 := (Bool.and_eq_true _ _ ▸ habs).2
    simp at h3
  · rw [if_neg hc]
    intro habs
    exact hc (Bool.and_eq_true _ _ ▸ habs).1

theorem string_ne_append_tree (s : String) : s ++ "_tree" ≠ s := by
  intro h
  have := congrArg String.length h
  rw [String.length_append] at this
  have h5 : ("_tree" : String).length = 5 := rfl
  omega

theorem searchVectors_congr_joined (st1 st2 : Store) (q : List ℚ) (coll : String)
    (k : ℕ) (h : Storage.joinedRows st1 coll = Storage.joinedRows st2 coll) :
    Storage.searchVectors st1 q coll k = Storage.searchVectors st2 q coll k := by
  unfold Storage.searchVectors Storage.scoredHits
  rw [h]

theorem validateEmbeddingDimension_same (st : Store)
    (h : st.embeddingDim = some d) :
    Storage.validateEmbeddingDimension st d = .ok st := by
  unfold Storage.validateEmbeddingDimension Storage.getChunksEmbeddingDimension
  rw [h]
  dsimp only
  rw [if_neg (by simp)]

theorem embedFilesOnDemand_ok (fetch : String → Option String)
    (provider : Pipeline.EmbeddingProvider) (cs co : ℕ) (st : Store)
    (coll : String) (paths : List String) (hcs : 1 ≤ cs)
    (hdim : st.embeddingDim = some provider.dimension)
    (hmeta : Storage.getRepoMeta st coll ≠ none)
    (hu : Storage.getUnembeddedFiles st coll paths = paths)
    (hne : paths ≠ [])
    (hfetch : ∀ p ∈ paths, (fetch p).isSome = true)
    (hcontent : ∀ p c, p ∈ paths → fetch p = some c →
      Chunker.normalizeText c.data ≠ [])
    (h1 : ∀ d ∈ st.docs, d.id < st.nextDocId)
    (h2 : (st.docs.map (·.id)).Nodup) :
    ∃ stf, Retriever.embedFilesOnDemand fetch provider cs co st coll paths =
        .ok (stf, paths.length) ∧
      stf.embeddingDim = st.embeddingDim ∧
      (∀ coll', coll' ≠ coll →
        Storage.joinedRows stf coll' = Storage.joinedRows st coll') ∧
      Storage.getUnembeddedFiles stf coll paths = [] := by
  obtain ⟨m, hm⟩ := Option.ne_none_iff_exists'.mp hmeta
  obtain ⟨hc1, hc2⟩ := filterMap_fetch_paths fetch paths hfetch
  set contents := paths.filterMap (fun p => (fetch p).map (fun c => (p, c))) with hcdef
  have hcne : contents ≠ [] := by
    intro h0
    rw [h0] at hc1
    exact hne hc1.symm
  have hval := validateEmbeddingDimension_same st hdim
  obtain ⟨f1, f2, f3, f4, f5⟩ := embedFold_spec provider coll cs co hcs contents ⟨st, 0, []⟩
    (fun pc hpc => hcontent pc.1 pc.2 (hc2 pc hpc).2 (hc2 pc hpc).1) h1 h2
  set F := contents.foldl (fun a pc =>
    Retriever.embedOneFile provider coll cs co a pc.1 pc.2) ⟨st, 0, []⟩ with hF
  have hlen : contents.length = paths.length := by
    rw [← hc1, List.length_map]
  have hpathsF : F.embeddedPaths = paths := by
    rw [f5]
    dsimp only
    rw [List.nil_append, hc1]
  have hcount : F.embeddedCount = paths.length := by
    rw [f4]
    dsimp only
    omega
  have hnotEmpty : F.embeddedPaths.isEmpty = false := by
    rw [hpathsF]
    cases paths with
    | nil => exact absurd rfl hne
    | cons a t => rfl
  refine ⟨(Storage.markFilesEmbedded F.store coll paths).1, ?_, ?_, ?_, ?_⟩
  · unfold Retriever.embedFilesOnDemand
    rw [hm]
    rw [hu, if_neg hne, ← hcdef, if_neg hcne, hval]
    dsimp only [Bind.bind, Except.instMonad, Except.bind]
    rw [← hF, hnotEmpty]
    rw [if_neg Bool.false_ne_true, hpathsF, hcount]
  · exact f2
  · intro coll' hne'
    exact f3 coll' hne'
  · exact markFilesEmbedded_getUnembedded F.store coll paths

theorem embedFilesOnDemand_noop (fetch : String → Option String)
    (provider : Pipeline.EmbeddingProvider) (cs co : ℕ) (st : Store)
    (coll : String) (paths : List String)
    (hu : Storage.getUnembeddedFiles st coll paths = []) :
    Retriever.embedFilesOnDemand fetch provider cs co st coll paths = .ok (st, 0) := by
  unfold Retriever.embedFilesOnDemand
  cases hm : Storage.getRepoMeta st coll
  · rfl
  · dsimp only
    rw [hu, if_pos rfl]

/-- C4: lazy-onboarding embeds each file at most once, gated by the
`embedded` flag.  In a lazily onboarded collection whose tree index returns
hits naming (after dropping empty sources and deduplicating) the paths
`treePaths`, each backed by a not-yet-embedded `repo_files` row, with
fetchable non-empty content: the first `retrieve_lazy` call embeds exactly
those `treePaths.length` files and flips their rows to `embedded`, and a
second identical call embeds zero additional files and leaves the store
unchanged. -/
theorem claim_C4 (fetch : String → Option String)
    (provider : Pipeline.EmbeddingProvider) (ownershipBonus : String → ℚ)
    (cs co : ℕ) (st : Store) (question collection : String) (topK : ℕ)
    (qe : List ℚ) (qrest : List (List ℚ)) (treePaths : List String)
    (hcs : 1 ≤ cs)
    (hdim : st.embeddingDim = some provider.dimension)
    (hq : provider.embed [question.data] = qe :: qrest)
    (htr : Storage.searchVectors st qe (collection ++ "_tree") (max (topK * 3) 15) ≠ [])
    (htp : treePaths = Retriever.pyDedup
      (((Storage.searchVectors st qe (collection ++ "_tree")
          (max (topK * 3) 15)).map (·.sourceFile)).filter (fun s => !(s == ""))))
    (hne : treePaths ≠ [])
    (hmeta : Storage.getRepoMeta st collection ≠ none)
    (hu : Storage.getUnembeddedFiles st collection treePaths = treePaths)
    (hfetch : ∀ p ∈ treePaths, (fetch p).isSome = true)
    (hcontent : ∀ p c, p ∈ treePaths → fetch p = some c →
      Chunker.normalizeText c.data ≠ [])
    (h1 : ∀ d ∈ st.docs, d.id < st.nextDocId)
    (h2 : (st.docs.map (·.id)).Nodup) :
    ∃ st2 hits1 hits2,
      Retriever.retrieveLazy fetch provider ownershipBonus cs co st question
          collection topK = .ok (st2, hits1, treePaths.length) ∧
      Retriever.retrieveLazy fetch provider ownershipBonus cs co st2 question
          collection topK = .ok (st2, hits2, 0) ∧
      Storage.getUnembeddedFiles st2 collection treePaths = [] := by
  obtain ⟨stf, hcall, hdim2, hjoin, hu2⟩ :=
    embedFilesOnDemand_ok fetch provider cs co st collection treePaths hcs hdim
      hmeta hu hne hfetch hcontent h1 h2
  have htreeEq : Storage.searchVectors stf qe (collection ++ "_tree")
      (max (topK * 3) 15) =
      Storage.searchVectors st qe (collection ++ "_tree") (max (topK * 3) 15) :=
    searchVectors_congr_joined stf st qe _ _
      (hjoin _ (string_ne_append_tree collection))
  have hval1 := validateEmbeddingDimension_same st hdim
  have hval2 := validateEmbeddingDimension_same stf (hdim2.trans hdim)
  refine ⟨stf, ?_⟩
  have hfirst : ∃ hits1,
      Retriever.retrieveLazy fetch provider ownershipBonus cs co st question
        collection topK = .ok (stf, hits1, treePaths.length) := by
    unfold Retriever.retrieveLazy
    rw [hval1]
    dsimp only [Bind.bind, Except.instMonad, Except.bind]
    rw [hq]
    dsimp only
    rw [if_neg htr, ← htp, hcall]
    dsimp only [Bind.bind, Except.instMonad, Except.bind]
    by_cases hraw : Storage.searchVectors stf qe collection (max (topK * 6) topK) = []
    · exact ⟨_, by rw [if_pos hraw]⟩
    · exact ⟨_, by rw [if_neg hraw]⟩
  have hsecond : ∃ hits2,
      Retriever.retrieveLazy fetch provider ownershipBonus cs co stf question
        collection topK = .ok (stf, hits2, 0) := by
    unfold Retriever.retrieveLazy
    rw [hval2]
    dsimp only [Bind.bind, Except.instMonad, Except.bind]
    rw [hq]
    dsimp only
    rw [htreeEq, if_neg htr, ← htp,
      embedFilesOnDemand_noop fetch provider cs co stf collection treePaths hu2]
    dsimp only [Bind.bind, Except.instMonad, Except.bind]
    by_cases hraw : Storage.searchVectors stf qe collection (max (topK * 6) topK) = []
    · exact ⟨_, by rw [if_pos hraw]⟩
    · exact ⟨_, by rw [if_neg hraw]⟩
  obtain ⟨hits1, hh1⟩ := hfirst
  obtain ⟨hits2, hh2⟩ := hsecond
  exact ⟨hits1, hits2, hh1, hh2, hu2⟩

/-- A lazily onboarded store for the C4 witness: one `code_tree` path-index
document/chunk naming `a.py`, a content collection `code` with zero rows,
and one unembedded `repo_files` row for `a.py`. -/
def exStoreC4 : Store :=
  ⟨2, [⟨1, "tree-key", "sha-tree", "code_tree", []⟩],
    [⟨1, 0, ['x'], .list [.num 1], 1, "a.py", 1, 1⟩],
    some 1,
    [⟨"code", "own", "repo", "main", "a.py", "fsha", 10, false⟩]⟩

/-- One-dimensional embedding provider for the C4 witness. -/
def exProviderC4 : Pipeline.EmbeddingProvider :=
  ⟨1, fun l => l.map (fun _ => [1])⟩

theorem claim_C4_witness :
    (exStoreC4.embeddingDim = some exProviderC4.dimension ∧
      Storage.searchVectors exStoreC4 [1] ("code" ++ "_tree") (max (5 * 3) 15) ≠ [] ∧
      Storage.getUnembeddedFiles exStoreC4 "code" ["a.py"] = ["a.py"] ∧
      Chunker.normalizeText ("hello world").data ≠ []) ∧
    (∃ st2 hits1 hits2,
      Retriever.retrieveLazy (fun _ => some "hello world") exProviderC4 (fun _ => 0)
          1 0 exStoreC4 "q" "code" 5 = .ok (st2, hits1, (["a.py"] : List String).length) ∧
      Retriever.retrieveLazy (fun _ => some "hello world") exProviderC4 (fun _ => 0)
          1 0 st2 "q" "code" 5 = .ok (st2, hits2, 0) ∧
      Storage.getUnembeddedFiles st2 "code" ["a.py"] = []) :=
  ⟨⟨rfl, by decide, by decide, by decide⟩,
    claim_C4 (fun _ => some "hello world") exProviderC4 (fun _ => 0) 1 0 exStoreC4
      "q" "code" 5 [1] [] ["a.py"]
      (by decide) rfl (by decide) (by decide) (by decide) (by decide)
      (by decide) (by decide) (by decide)
      (by
        intro p c hp hc
        have hcc : c = "hello world" := (Option.some.inj hc).symm
        subst hcc
        decide)
      (by decide) (by decide)⟩

end RagOps
